import Mathlib

/-!
Shallow embedding of the looping-modifier engine of the array-language
interpreter in src/src/algorithm/loops.rs, together with theorems checking
the specification claims against it.  The array value model, the stack
machine interface and row reassembly are collaborators that are not part of
src/; they are modelled from the spec (sections 3 and 6).  All combinator
logic below is translated directly from loops.rs.
-/

namespace Uiua

variable {V T R A B C : Type}

/-- Modelled from the spec: IEEE f64 values restricted to the exactly
representable rationals plus the two infinities.  NaN is omitted: the arms
marked as NaN cases below return a placeholder and are never exercised by
the claims.  Finite arithmetic is modelled exactly over the rationals. -/
inductive F64 where
  | negInf : F64
  | posInf : F64
  | fin : Rat → F64
deriving DecidableEq

/-- IEEE addition on the modelled values; the mixed-infinity arms are NaN in
IEEE and are placeholders here. -/
def F64.add : F64 → F64 → F64
  | .fin a, .fin b => .fin (a + b)
  | .negInf, .posInf => .fin 0
  | .posInf, .negInf => .fin 0
  | .negInf, _ => .negInf
  | _, .negInf => .negInf
  | _, _ => .posInf

def F64.neg : F64 → F64
  | .negInf => .posInf
  | .posInf => .negInf
  | .fin a => .fin (-a)

/-- IEEE subtraction on the modelled values. -/
def F64.sub (a b : F64) : F64 := F64.add a (F64.neg b)

/-- IEEE multiplication; the zero-times-infinity arms are NaN placeholders. -/
def F64.mul : F64 → F64 → F64
  | .fin a, .fin b => .fin (a * b)
  | .posInf, .posInf => .posInf
  | .negInf, .negInf => .posInf
  | .posInf, .negInf => .negInf
  | .negInf, .posInf => .negInf
  | .posInf, .fin a => if 0 < a then .posInf else if a < 0 then .negInf else .fin 0
  | .negInf, .fin a => if 0 < a then .negInf else if a < 0 then .posInf else .fin 0
  | .fin a, .posInf => if 0 < a then .posInf else if a < 0 then .negInf else .fin 0
  | .fin a, .negInf => if 0 < a then .negInf else if a < 0 then .posInf else .fin 0

/-- IEEE division restricted to the modelled values: finite division is exact
rational division (rounding is not modelled), division by zero follows the
positive-zero convention, and the indeterminate arms are NaN placeholders. -/
def F64.div : F64 → F64 → F64
  | .fin a, .fin b =>
      if b = 0 then (if 0 < a then .posInf else if a < 0 then .negInf else .fin 0)
      else .fin (a / b)
  | .fin _, .posInf => .fin 0
  | .fin _, .negInf => .fin 0
  | .posInf, .fin a => if a < 0 then .negInf else .posInf
  | .negInf, .fin a => if a < 0 then .posInf else .negInf
  | _, _ => .fin 0

/-- The linear order on the modelled (non-NaN) f64 values. -/
def F64.le : F64 → F64 → Bool
  | .negInf, _ => true
  | _, .posInf => true
  | .fin a, .fin b => decide (a ≤ b)
  | _, _ => false

/-- The f64 max of two non-NaN values. -/
def F64.max (a b : F64) : F64 := if F64.le a b then b else a

/-- The f64 min of two non-NaN values. -/
def F64.min (a b : F64) : F64 := if F64.le a b then a else b

/-- Byte (u8) to f64 conversion; exact. -/
def byteToF64 (n : Nat) : F64 := .fin (n : Rat)

/-- Modelled from the spec (section 3): a dtype-homogeneous array is a shape
together with a flat data buffer.  The invariant that the data length equals
the shape product is tracked separately as Arr.valid. -/
structure Arr (T : Type) where
  shape : List Nat
  data : List T
deriving DecidableEq

def Arr.rank (a : Arr T) : Nat := a.shape.length

def Arr.flat_len (a : Arr T) : Nat := a.shape.prod

/-- Modelled from the spec: row_count is shape[0] at rank at least 1, else 1. -/
def Arr.row_count (a : Arr T) : Nat := a.shape.headD 1

/-- Modelled from the spec: row_len is the product of shape[1..]. -/
def Arr.row_len (a : Arr T) : Nat := a.shape.tail.prod

/-- Modelled from the spec: row i is the slice of the data buffer of length
row_len starting at i * row_len, with the leading axis removed. -/
def Arr.row (a : Arr T) (i : Nat) : Arr T :=
  ⟨a.shape.tail, (a.data.drop (i * a.row_len)).take a.row_len⟩

/-- Modelled from the spec: row iteration; a rank-0 array iterates its single
cell (its row_count is 1). -/
def Arr.rows (a : Arr T) : List (Arr T) := (List.range a.row_count).map a.row

/-- Modelled from the spec: flat (leaf) iteration, yielding scalar values. -/
def Arr.flat_values (a : Arr T) : List (Arr T) := a.data.map (fun t => ⟨[], [t]⟩)

/-- Shape and data-length consistency invariant. -/
def Arr.valid (a : Arr T) : Prop := a.data.length = a.shape.prod

/-- The spec notation xs[0..=k-1] as an array: the first k rows of xs. -/
def Arr.take_rows (k : Nat) (a : Arr T) : Arr T :=
  ⟨k :: a.shape.tail, a.data.take (k * a.row_len)⟩

/-- Modelled from the spec: xs with its first dimension set to 0, used by scan
when row_count is 0. -/
def Arr.first_dim_zero (a : Arr T) : Arr T :=
  match a.shape with
  | [] => a
  | _ :: rest => ⟨0 :: rest, []⟩

/-- Modelled from the spec: row-value reassembly.  Rows of equal shape are
stacked into an array with one more leading axis; an empty row list gives the
empty shape-[0] array; mismatched shapes are an error. -/
def from_row_values : List (Arr T) → Except String (Arr T)
  | [] => .ok ⟨[0], []⟩
  | r :: rest =>
      if rest.all (fun s => decide (s.shape = r.shape)) then
        .ok ⟨(r :: rest).length :: r.shape, ((r :: rest).map Arr.data).flatten⟩
      else .error "Cannot combine arrays with different shapes"

/-- Modelled from the spec: the per-dtype infallible reassembly used by the
grouping engine; all of its callers pass rows of equal shape. -/
def from_row_arrays : List (Arr T) → Arr T
  | [] => ⟨[0], []⟩
  | r :: rest => ⟨(r :: rest).length :: r.shape, ((r :: rest).map Arr.data).flatten⟩

/-- The recognized primitive kernels, plus a stand-in for every other
primitive (which always takes the generic path). -/
inductive Primitive where
  | add | sub | mul | div | max | min
  | eq | ne | lt | gt | le | ge
  | join | couple
  | other
deriving DecidableEq

/-- Modelled from the spec (section 6): the minimal function-value interface
the combinators consume.  A call transforms the whole stack and reports
whether the function signalled break; errors are strings.  prim is the
as_flipped_primitive view of the function. -/
structure StackFn (V : Type) where
  args : Nat
  outputs : Nat
  prim : Option (Primitive × Bool)
  call : List V → Except String (List V × Bool)

/-- Modelled from the spec: pop with a label, failing on an empty stack. -/
def popv (label : String) : List V → Except String (V × List V)
  | [] => .error ("expected " ++ label)
  | v :: st => .ok (v, st)

/-- Modelled from the spec: truncate the stack down to height n. -/
def truncate_stack (n : Nat) (st : List V) : List V := st.drop (st.length - n)

/-- Modelled from the spec: a plain call (env.call); a break escaping a plain
call is surfaced as an error. -/
def call_value (f : StackFn V) (st : List V) : Except String (List V) :=
  match f.call st with
  | .error e => .error e
  | .ok (_, true) => .error "break escaped a plain call"
  | .ok (st2, false) => .ok st2

/-- The function behaves as a pure arity-2, one-output kernel g applied to the
top two stack values (top first) and never signals break or fails. -/
def IsPure2 (f : StackFn V) (g : V → V → V) : Prop :=
  f.args = 2 ∧ ∀ a b s, f.call (a :: b :: s) = .ok (g a b :: s, false)

/-- The function behaves as a pure arity-1, one-output kernel g and never
signals break or fails. -/
def IsPure1 (f : StackFn V) (g : V → V) : Prop :=
  f.args = 1 ∧ f.outputs = 1 ∧ ∀ a s, f.call (a :: s) = .ok (g a :: s, false)

/-- Identity-like arity-1 function: pushes its argument back unchanged. -/
def IsIdFn (f : StackFn V) : Prop :=
  f.args = 1 ∧ ∀ a s, f.call (a :: s) = .ok (a :: s, false)

/-- Pure arity-2 kernel g with a break predicate br; a breaking call may leave
junk j a b on the stack below its result, a non-breaking call is balanced. -/
def IsPure2Br (f : StackFn V) (g : V → V → V) (br : V → V → Bool)
    (j : V → V → List V) : Prop :=
  f.args = 2 ∧
    ∀ a b s, f.call (a :: b :: s) =
      .ok (g a b :: (if br a b then j a b else []) ++ s, br a b)

/-- Pure n-ary one-output kernel over the top n stack values. -/
def IsPureN (f : StackFn V) (n : Nat) (g : List V → V) : Prop :=
  f.args = n ∧ ∀ rs s, rs.length = n → f.call (rs ++ s) = .ok (g rs :: s, false)

/-- Pure n-ary zero-output function over the top n stack values. -/
def IsPureN0 (f : StackFn V) (n : Nat) : Prop :=
  f.args = n ∧ ∀ rs s, rs.length = n → f.call (rs ++ s) = .ok (s, false)

/-- Source flip (loops.rs lines 20-22): swap the arguments of a kernel. -/
def flip (f : A → B → C) : B → A → C := fun b a => f a b

/-- Slices a flat buffer into rc chunks of rl elements each (the row
decomposition of a buffer, as performed by the fast kernels). -/
def sliceRows (rl rc : Nat) (data : List T) : List (List T) :=
  (List.range rc).map (fun i => (data.drop (i * rl)).take rl)

/-- Source fast_reduce (lines 57-101).  conv models the Into bound of the
source (the identity for the Num instantiation, byte-to-f64 for the Byte
one).  The rank-0 arm mirrors the unwrap of the single element (empty data is
impossible for a valid rank-0 array); the rank-2-and-up arm performs the
columnwise fold over rows, modelled as a fold of zipWith over the row
chunks. -/
def fast_reduce (arr : Arr T) (identity : R) (f : R → T → R) (conv : T → R) :
    Arr R :=
  match arr.shape with
  | [] => ⟨[], (arr.data.take 1).map conv⟩
  | [_] =>
      ⟨[], [match arr.data with
            | [] => identity
            | a :: rest => rest.foldl f (conv a)]⟩
  | _ :: r1 :: rest =>
      let rl := (r1 :: rest).prod
      let rc := arr.row_count
      if rc = 0 then ⟨r1 :: rest, List.replicate rl identity⟩
      else
        match sliceRows rl rc arr.data with
        | [] => ⟨r1 :: rest, []⟩
        | c0 :: cs =>
            ⟨r1 :: rest, cs.foldl (fun acc c => List.zipWith f acc c) (c0.map conv)⟩

/-- Source generic_fold, arity-2 loop (lines 121-137): push row, push acc,
call, pop the new accumulator; on break reassemble the popped value with the
remaining rows and stop. -/
def generic_fold2_go (f : StackFn (Arr T)) :
    Arr T → List (Arr T) → List (Arr T) → Except String (List (Arr T))
  | acc, [], stack => .ok (acc :: stack)
  | acc, row :: rest, stack =>
      match f.call (acc :: row :: stack) with
      | .error e => .error e
      | .ok (st, brk) =>
          match popv "reduced function result" st with
          | .error e => .error e
          | .ok (acc2, st2) =>
              if brk then
                match from_row_values (acc2 :: rest) with
                | .error e => .error e
                | .ok v => .ok (v :: st2)
              else generic_fold2_go f acc2 rest st2

/-- Source generic_fold, arity-0-or-1 loop (lines 105-119). -/
def generic_fold01_go (f : StackFn (Arr T)) :
    List (Arr T) → List (Arr T) → Except String (List (Arr T))
  | [], stack => .ok stack
  | row :: rest, stack =>
      match f.call (row :: stack) with
      | .error e => .error e
      | .ok (st, false) => generic_fold01_go f rest st
      | .ok (st, true) =>
          if f.args = 0 then
            match from_row_values rest with
            | .error e => .error e
            | .ok v => .ok (v :: st)
          else
            match popv "reduced function result" st with
            | .error e => .error e
            | .ok (r, st2) =>
                match from_row_values (r :: rest) with
                | .error e => .error e
                | .ok v => .ok (v :: st2)

/-- Source generic_fold (lines 103-145): dispatch on the function arity. -/
def generic_fold (f : StackFn (Arr T)) (xs : Arr T) (init : Option (Arr T))
    (stack : List (Arr T)) : Except String (List (Arr T)) :=
  match f.args with
  | 0 | 1 => generic_fold01_go f (init.toList ++ xs.rows) stack
  | 2 =>
      match init, xs.rows with
      | some a, rs => generic_fold2_go f a rs stack
      | none, r :: rs => generic_fold2_go f r rs stack
      | none, [] => .error "Cannot reduce empty array"
  | n => .error ("Cannot reduce a function that takes " ++ toString n ++ " arguments")

/-- Source reduce, fast arms for a Num array (lines 30-40). -/
def reduce_fast_num (p : Primitive) (flipped : Bool) (nums : Arr F64) :
    Option (Arr F64) :=
  match p with
  | .add => some (fast_reduce nums (.fin 0) F64.add id)
  | .sub =>
      some (if flipped then fast_reduce nums (.fin 0) F64.sub id
            else fast_reduce nums (.fin 0) (flip F64.sub) id)
  | .mul => some (fast_reduce nums (.fin 1) F64.mul id)
  | .div =>
      some (if flipped then fast_reduce nums (.fin 1) F64.div id
            else fast_reduce nums (.fin 1) (flip F64.div) id)
  | .max => some (fast_reduce nums .negInf F64.max id)
  | .min => some (fast_reduce nums .posInf F64.min id)
  | _ => none

/-- Source reduce, fast arms for a Byte array (lines 41-51). -/
def reduce_fast_byte (p : Primitive) (flipped : Bool) (bytes : Arr Nat) :
    Option (Arr F64) :=
  match p with
  | .add =>
      some (fast_reduce bytes (.fin 0) (fun a b => F64.add a (byteToF64 b)) byteToF64)
  | .sub =>
      some (if flipped then
              fast_reduce bytes (.fin 0) (fun a b => F64.sub a (byteToF64 b)) byteToF64
            else
              fast_reduce bytes (.fin 0) (fun a b => F64.sub (byteToF64 b) a) byteToF64)
  | .mul =>
      some (fast_reduce bytes (.fin 1) (fun a b => F64.mul a (byteToF64 b)) byteToF64)
  | .div =>
      some (if flipped then
              fast_reduce bytes (.fin 1) (fun a b => F64.div a (byteToF64 b)) byteToF64
            else
              fast_reduce bytes (.fin 1) (fun a b => F64.div (byteToF64 b) a) byteToF64)
  | .max =>
      some (fast_reduce bytes .negInf (fun a b => F64.max a (byteToF64 b)) byteToF64)
  | .min =>
      some (fast_reduce bytes .posInf (fun a b => F64.min a (byteToF64 b)) byteToF64)
  | _ => none

/-- Source reduce (lines 24-55), Num arm: a recognized primitive takes the
fast path, anything else falls back to generic_fold with no initial value. -/
def reduce_num (f : StackFn (Arr F64)) (xs : Arr F64) (stack : List (Arr F64)) :
    Except String (List (Arr F64)) :=
  match f.prim with
  | some (p, flipped) =>
      match reduce_fast_num p flipped xs with
      | some arr => .ok (arr :: stack)
      | none => generic_fold f xs none stack
  | none => generic_fold f xs none stack

/-- Source fast_scan (lines 196-228).  The rank-1 arm is the in-place
inclusive left scan seeded from data[0], written with List.scanl; the
rank-2-and-up arm appends, for each row, the zipWith of the previous output
row with the current row (the source reads the previous output row back out
of the flat output buffer at offset start = len - row_len). -/
def fast_scan (arr : Arr T) (f : T → T → T) : Arr T :=
  match arr.shape with
  | [] => arr
  | [n] =>
      if n = 0 then arr
      else
        match arr.data with
        | [] => arr
        | a :: rest => ⟨arr.shape, List.scanl f a rest⟩
  | _ :: r1 :: rest =>
      let rl := (r1 :: rest).prod
      if arr.row_count = 0 then arr
      else
        match sliceRows rl arr.row_count arr.data with
        | [] => arr
        | c0 :: cs =>
            ⟨arr.shape, (List.scanl (fun acc c => List.zipWith f acc c) c0 cs).flatten⟩

/-- Source generic_scan loop (lines 240-251): record the stack height, push
row then acc, call, pop the new accumulator and append it to the scanned
list; on break truncate the stack back to the recorded height and stop. -/
def generic_scan_go (f : StackFn (Arr T)) :
    Arr T → List (Arr T) → List (Arr T) → List (Arr T) →
    Except String (List (Arr T) × List (Arr T))
  | _, [], scanned, stack => .ok (scanned, stack)
  | acc, row :: rest, scanned, stack =>
      let start_height := stack.length
      match f.call (acc :: row :: stack) with
      | .error e => .error e
      | .ok (st, brk) =>
          match popv "scanned function result" st with
          | .error e => .error e
          | .ok (acc2, st2) =>
              if brk then .ok (scanned ++ [acc2], truncate_stack start_height st2)
              else generic_scan_go f acc2 rest (scanned ++ [acc2]) st2

/-- Source generic_scan (lines 230-254). -/
def generic_scan (f : StackFn (Arr T)) (xs : Arr T) (stack : List (Arr T)) :
    Except String (List (Arr T)) :=
  if xs.row_count = 0 then .ok (xs.first_dim_zero :: stack)
  else
    match xs.rows with
    | [] => .error "panic: row iterator of a nonempty array was empty"
    | r0 :: rest =>
        match generic_scan_go f r0 rest [r0] stack with
        | .error e => .error e
        | .ok (scanned, st) =>
            match from_row_values scanned with
            | .error e => .error e
            | .ok v => .ok (v :: st)

/-- Source scan (lines 155-194), Num arm: reject rank 0, then dispatch a
recognized primitive to fast_scan and anything else to generic_scan. -/
def scan_num (f : StackFn (Arr F64)) (xs : Arr F64) (stack : List (Arr F64)) :
    Except String (List (Arr F64)) :=
  if xs.rank = 0 then .error "Cannot scan rank 0 array"
  else
    match f.prim with
    | some (p, flipped) =>
        match p with
        | .add => .ok (fast_scan xs F64.add :: stack)
        | .sub =>
            .ok (fast_scan xs (if flipped then F64.sub else flip F64.sub) :: stack)
        | .mul => .ok (fast_scan xs F64.mul :: stack)
        | .div =>
            .ok (fast_scan xs (if flipped then F64.div else flip F64.div) :: stack)
        | .max => .ok (fast_scan xs F64.max :: stack)
        | .min => .ok (fast_scan xs F64.min :: stack)
        | _ => generic_scan f xs stack
    | none => generic_scan f xs stack

/-- Source each1_1 loop (lines 303-317): push each flat value, call, pop the
result; on break pass the remaining flat values through unchanged. -/
def each1_1_go (f : StackFn (Arr T)) :
    List (Arr T) → List (Arr T) → List (Arr T) →
    Except String (List (Arr T) × List (Arr T))
  | [], vals, stack => .ok (vals, stack)
  | v :: rest, vals, stack =>
      match f.call (v :: stack) with
      | .error e => .error e
      | .ok (st, brk) =>
          match popv "each function result" st with
          | .error e => .error e
          | .ok (r, st2) =>
              if brk then .ok (vals ++ [r] ++ rest, st2)
              else each1_1_go f rest (vals ++ [r]) st2

/-- Source each1_1 (lines 303-323): flat-value traversal, reassembly, then
the result shape is the input shape followed by the cell shape. -/
def each1_1 (f : StackFn (Arr T)) (xs : Arr T) (stack : List (Arr T)) :
    Except String (List (Arr T)) :=
  match each1_1_go f xs.flat_values [] stack with
  | .error e => .error e
  | .ok (new_values, st) =>
      match from_row_values new_values with
      | .error e => .error e
      | .ok eached => .ok (⟨xs.shape ++ eached.shape.tail, eached.data⟩ :: st)

/-- Source rows1_1 loop (lines 480-490); identical to the each1_1 loop but
over rows. -/
def rows1_1_go (f : StackFn (Arr T)) :
    List (Arr T) → List (Arr T) → List (Arr T) →
    Except String (List (Arr T) × List (Arr T))
  | [], vals, stack => .ok (vals, stack)
  | v :: rest, vals, stack =>
      match f.call (v :: stack) with
      | .error e => .error e
      | .ok (st, brk) =>
          match popv "rows function result" st with
          | .error e => .error e
          | .ok (r, st2) =>
              if brk then .ok (vals ++ [r] ++ rest, st2)
              else rows1_1_go f rest (vals ++ [r]) st2

/-- Source rows1_1 (lines 477-494): row traversal then reassembly. -/
def rows1_1 (f : StackFn (Arr T)) (xs : Arr T) (stack : List (Arr T)) :
    Except String (List (Arr T)) :=
  match rows1_1_go f xs.rows [] stack with
  | .error e => .error e
  | .ok (new_rows, st) =>
      match from_row_values new_rows with
      | .error e => .error e
      | .ok res => .ok (res :: st)

/-- Source monadic_level_recursive (lines 890-902): at depth 0 push the value
and call f, popping the result; otherwise recurse over the rows (threading
the stack) and reassemble. -/
def monadic_level_recursive (f : StackFn (Arr T)) :
    Nat → Arr T → List (Arr T) → Except String (Arr T × List (Arr T))
  | 0, value, stack =>
      match call_value f (value :: stack) with
      | .error e => .error e
      | .ok st => popv "level function result" st
  | n + 1, value, stack =>
      match ((value.rows).foldlM
          (fun (p : List (Arr T) × List (Arr T)) r =>
            match monadic_level_recursive f n r p.2 with
            | Except.error e => Except.error e
            | Except.ok (v, st2) => Except.ok (p.1 ++ [v], st2))
          ([], stack) : Except String (List (Arr T) × List (Arr T))) with
      | .error e => .error e
      | .ok (rs, st) =>
          match from_row_values rs with
          | .error e => .error e
          | .ok v => .ok (v, st)

/-- Source level, single-entry rank-list arm (lines 807-830): a rank-0
argument is pushed back unchanged before the rank entry is inspected; rank 0
dispatches to each1_1, rank -1 to rows1_1, infinity (none) to a plain call
on the whole array, and any other rank to the recursive driver with the
clamped descent depth. -/
def level1 (f : StackFn (Arr T)) (n : Option Int) (xs : Arr T)
    (stack : List (Arr T)) : Except String (List (Arr T)) :=
  if xs.rank = 0 then .ok (xs :: stack)
  else if n = some 0 then each1_1 f xs stack
  else if n = some (-1) then rows1_1 f xs stack
  else
    match n with
    | none => call_value f (xs :: stack)
    | some k =>
        let r : Nat := if k < 0 then ((xs.rank : Int) + k).toNat
                       else Min.min k.toNat xs.rank
        match monadic_level_recursive f (xs.rank - r) xs stack with
        | .error e => .error e
        | .ok (res, st) => .ok (res :: st)

/-- Source rows2_1 (lines 507-526): row counts must match; then zip the rows,
push y then x, call with break disallowed, pop, and reassemble. -/
def rows2_1_go (f : StackFn (Arr T)) :
    List (Arr T × Arr T) → List (Arr T) → List (Arr T) →
    Except String (List (Arr T) × List (Arr T))
  | [], vals, stack => .ok (vals, stack)
  | (x, y) :: rest, vals, stack =>
      match f.call (x :: y :: stack) with
      | .error e => .error e
      | .ok (_, true) => .error "break is not allowed in multi-argument rows"
      | .ok (st, false) =>
          match popv "rows function result" st with
          | .error e => .error e
          | .ok (v, st2) => rows2_1_go f rest (vals ++ [v]) st2

/-- Source rows2_1 (lines 507-526). -/
def rows2_1 (f : StackFn (Arr T)) (xs ys : Arr T) (stack : List (Arr T)) :
    Except String (List (Arr T)) :=
  if xs.row_count ≠ ys.row_count then
    .error ("Cannot rows arrays with different number of rows " ++
      toString xs.row_count ++ " and " ++ toString ys.row_count)
  else
    match rows2_1_go f (xs.rows.zip ys.rows) [] stack with
    | .error e => .error e
    | .ok (new_rows, st) =>
        match from_row_values new_rows with
        | .error e => .error e
        | .ok res => .ok (res :: st)

/-- Pops the next row of every argument iterator; none models the next()
unwrap panic on an exhausted iterator. -/
def nextAll : List (List V) → Option (List V × List (List V))
  | [] => some ([], [])
  | l :: ls =>
      match l with
      | [] => none
      | v :: rest =>
          match nextAll ls with
          | none => none
          | some (vs, ls2) => some (v :: vs, rest :: ls2)

/-- Source rowsn_1 loop (lines 546-560): args[0].row_count iterations; each
iteration pushes one row per argument (last argument first, so the first
argument ends on top), calls with break disallowed, pops.  Note that no row
count check is made here; an exhausted iterator is a panic, modelled as the
distinct error below.  The break and pop messages say each, as in the
source. -/
def rowsn_1_go (f : StackFn (Arr T)) :
    Nat → List (List (Arr T)) → List (Arr T) → List (Arr T) →
    Except String (List (Arr T) × List (Arr T))
  | 0, _, vals, stack => .ok (vals, stack)
  | k + 1, iters, vals, stack =>
      match nextAll iters with
      | none => .error "panic: next on exhausted rows iterator"
      | some (rs, iters2) =>
          match f.call (rs ++ stack) with
          | .error e => .error e
          | .ok (_, true) => .error "break is not allowed in multi-argument each"
          | .ok (st, false) =>
              match popv "each function result" st with
              | .error e => .error e
              | .ok (v, st2) => rowsn_1_go f k iters2 (vals ++ [v]) st2

/-- Source rowsn_1 (lines 546-560).  The dispatcher only calls it with a
nonempty argument list; args[0] on an empty list is modelled by a default
empty array. -/
def rowsn_1 (f : StackFn (Arr T)) (args : List (Arr T)) (stack : List (Arr T)) :
    Except String (List (Arr T)) :=
  match rowsn_1_go f (args.headD ⟨[0], []⟩).row_count (args.map Arr.rows) [] stack with
  | .error e => .error e
  | .ok (vals, st) =>
      match from_row_values vals with
      | .error e => .error e
      | .ok v => .ok (v :: st)

/-- Source rowsn_0 loop (lines 562-572): as rowsn_1 but nothing is popped. -/
def rowsn_0_go (f : StackFn (Arr T)) :
    Nat → List (List (Arr T)) → List (Arr T) →
    Except String (List (Arr T))
  | 0, _, stack => .ok stack
  | k + 1, iters, stack =>
      match nextAll iters with
      | none => .error "panic: next on exhausted rows iterator"
      | some (rs, iters2) =>
          match f.call (rs ++ stack) with
          | .error e => .error e
          | .ok (_, true) => .error "break is not allowed in multi-argument each"
          | .ok (st, false) => rowsn_0_go f k iters2 st

/-- Source rowsn_0 (lines 562-572). -/
def rowsn_0 (f : StackFn (Arr T)) (args : List (Arr T)) (stack : List (Arr T)) :
    Except String (List (Arr T)) :=
  rowsn_0_go f (args.headD ⟨[0], []⟩).row_count (args.map Arr.rows) stack

/-- Source fast_table (lines 681-695): all pairs, xs outer, ys inner; result
shape is the two shapes concatenated. -/
def fast_table (a : Arr A) (b : Arr B) (f : A → B → C) : Arr C :=
  ⟨a.shape ++ b.shape, (a.data.map (fun x => b.data.map (fun y => f x y))).flatten⟩

/-- Source fast_table_join_or_couple (lines 697-709): all pairs, pushing the
pair itself; result shape gains a trailing axis of 2. -/
def fast_table_join_or_couple (a b : Arr T) : Arr T :=
  ⟨a.shape ++ b.shape ++ [2],
    (a.data.map (fun x => (b.data.map (fun y => [x, y])).flatten)).flatten⟩

/-- Source generic_table inner loop (lines 716-725): for a fixed x, push each
y then x, call with break disallowed, pop the cell. -/
def table_inner (f : StackFn (Arr T)) (x : Arr T) :
    List (Arr T) → List (Arr T) → List (Arr T) →
    Except String (List (Arr T) × List (Arr T))
  | [], items, stack => .ok (items, stack)
  | y :: ys, items, stack =>
      match f.call (x :: y :: stack) with
      | .error e => .error e
      | .ok (_, true) => .error "break is not allowed in table"
      | .ok (st, false) =>
          match popv "tabled function result" st with
          | .error e => .error e
          | .ok (item, st2) => table_inner f x ys (items ++ [item]) st2

/-- Source generic_table outer loop (lines 716-725). -/
def table_outer (f : StackFn (Arr T)) :
    List (Arr T) → List (Arr T) → List (Arr T) → List (Arr T) →
    Except String (List (Arr T) × List (Arr T))
  | [], _, items, stack => .ok (items, stack)
  | x :: xs, yvals, items, stack =>
      match table_inner f x yvals items stack with
      | .error e => .error e
      | .ok (items2, st) => table_outer f xs yvals items2 st

/-- Source generic_table (lines 711-732): iterate flat values of both
arguments, reassemble the cells, then overwrite the shape with
shape(xs) ++ shape(ys) ++ cell shape. -/
def generic_table (f : StackFn (Arr T)) (xs ys : Arr T) (stack : List (Arr T)) :
    Except String (List (Arr T)) :=
  match table_outer f xs.flat_values ys.flat_values [] stack with
  | .error e => .error e
  | .ok (items, st) =>
      match from_row_values items with
      | .error e => .error e
      | .ok tabled =>
          .ok (⟨xs.shape ++ ys.shape ++ tabled.shape.tail, tabled.data⟩ :: st)

/-- Source cross inner loop (lines 742-751): as table but over rows, with the
cross messages. -/
def cross_inner (f : StackFn (Arr T)) (x : Arr T) :
    List (Arr T) → List (Arr T) → List (Arr T) →
    Except String (List (Arr T) × List (Arr T))
  | [], items, stack => .ok (items, stack)
  | y :: ys, items, stack =>
      match f.call (x :: y :: stack) with
      | .error e => .error e
      | .ok (_, true) => .error "break is not allowed in cross"
      | .ok (st, false) =>
          match popv "crossed function result" st with
          | .error e => .error e
          | .ok (item, st2) => cross_inner f x ys (items ++ [item]) st2

/-- Source cross outer loop (lines 742-751). -/
def cross_outer (f : StackFn (Arr T)) :
    List (Arr T) → List (Arr T) → List (Arr T) → List (Arr T) →
    Except String (List (Arr T) × List (Arr T))
  | [], _, items, stack => .ok (items, stack)
  | x :: xs, yvals, items, stack =>
      match cross_inner f x yvals items stack with
      | .error e => .error e
      | .ok (items2, st) => cross_outer f xs yvals items2 st

/-- Source cross (lines 734-758): iterate rows of both arguments, reassemble,
then overwrite the shape with [row_count(xs), row_count(ys)] ++ cell shape. -/
def cross (f : StackFn (Arr T)) (xs ys : Arr T) (stack : List (Arr T)) :
    Except String (List (Arr T)) :=
  match cross_outer f xs.rows ys.rows [] stack with
  | .error e => .error e
  | .ok (items, st) =>
      match from_row_values items with
      | .error e => .error e
      | .ok crossed =>
          .ok (⟨xs.row_count :: ys.row_count :: crossed.shape.tail, crossed.data⟩ :: st)

/-- One step of the source group_groups loop (lines 1138-1141): append row r
to bucket g when g is nonnegative and r is below the row count.  The source
pushes into an indexed vector; this is modelled with set and getD (the index
is always in range, since every nonnegative index is at most max_index). -/
def bucketStep (xs : Arr T) (gs : List (List (Arr T))) (p : Nat × Int) :
    List (List (Arr T)) :=
  if 0 ≤ p.2 ∧ p.1 < xs.row_count then
    gs.set p.2.toNat ((gs.getD p.2.toNat []) ++ [xs.row p.1])
  else gs

/-- Source group_groups bucket construction (lines 1137-1141): start from
max(max_index, 0) + 1 empty buckets and run the push loop over the
enumerated index list. -/
def buildBuckets (xs : Arr T) (indices : List Int) (n : Nat) :
    List (List (Arr T)) :=
  (indices.enum).foldl (bucketStep xs) (List.replicate n [])

/-- Formats a shape the way the source error messages do. -/
def formatShape (s : List Nat) : String :=
  "[" ++ String.intercalate " " (s.map toString) ++ "]"

/-- Source Array::group_groups (lines 1118-1148): the index list must have
exactly row_count entries; an empty index list yields no buckets at all
(iter().max() is None); otherwise the buckets are built, reassembled
per-bucket, and returned in reverse order. -/
def Arr.group_groups (xs : Arr T) (indices : List Int) :
    Except String (List (Arr T)) :=
  if indices.length ≠ xs.row_count then
    .error ("Cannot group array of shape " ++ formatShape xs.shape ++
      " with indices of length " ++ toString indices.length)
  else
    match indices.max? with
    | none => .ok []
    | some max_index =>
        .ok (((buildBuckets xs indices ((Max.max max_index 0).toNat + 1)).reverse).map
          from_row_arrays)

/-- Source collapse_groups arity-0-or-1 loop (lines 1157-1165): push each
group, call with break disallowed, pop the result. -/
def collapse01_go (f : StackFn (Arr T)) (name : String) :
    List (Arr T) → List (Arr T) → List (Arr T) →
    Except String (List (Arr T) × List (Arr T))
  | [], vals, stack => .ok (vals, stack)
  | gp :: rest, vals, stack =>
      match f.call (gp :: stack) with
      | .error e => .error e
      | .ok (_, true) => .error ("break is not allowed in " ++ name)
      | .ok (st, false) =>
          match popv (name ++ " function result") st with
          | .error e => .error e
          | .ok (r, st2) => collapse01_go f name rest (vals ++ [r]) st2

/-- Source collapse_groups arity-2 loop (lines 1171-1182): reduce the groups
left to right, pushing acc then row (row on top); a break returns early with
whatever the call left on the stack. -/
def collapse2_go (f : StackFn (Arr T)) :
    Arr T → List (Arr T) → List (Arr T) → Except String (List (Arr T))
  | acc, [], stack => .ok (acc :: stack)
  | acc, row :: rest, stack =>
      match f.call (row :: acc :: stack) with
      | .error e => .error e
      | .ok (st, true) => .ok st
      | .ok (st, false) =>
          match popv "reduced function result" st with
          | .error e => .error e
          | .ok (acc2, st2) => collapse2_go f acc2 rest st2

/-- Source collapse_groups (lines 1150-1191).  In the arity-0-or-1 arm the
collected results are reversed before reassembly (line 1166). -/
def collapse_groups (f : StackFn (Arr T)) (groups : List (Arr T))
    (name : String) (stack : List (Arr T)) : Except String (List (Arr T)) :=
  match f.args with
  | 0 | 1 =>
      match collapse01_go f name groups [] stack with
      | .error e => .error e
      | .ok (vals, st) =>
          match from_row_values vals.reverse with
          | .error e => .error e
          | .ok res => .ok (res :: st)
  | 2 =>
      match groups with
      | [] => .error ("Cannot reduce empty " ++ name ++ " result")
      | g0 :: rest => collapse2_go f g0 rest stack
  | n => .error ("Cannot " ++ name ++ " with a function that takes " ++
      toString n ++ " arguments")

/-- Source group (lines 1097-1105), with the index list already converted:
bucket the rows, then collapse. -/
def group (f : StackFn (Arr T)) (indices : List Int) (values : Arr T)
    (stack : List (Arr T)) : Except String (List (Arr T)) :=
  match values.group_groups indices with
  | .error e => .error e
  | .ok gs => collapse_groups f gs "group" stack

/-- The identity element the reduce dispatch pairs with each of the four
primitives of claim C7 (lines 31, 34, 37, 38). -/
def identityOf : Primitive → F64
  | .add => .fin 0
  | .mul => .fin 1
  | .max => .negInf
  | .min => .posInf
  | _ => .fin 0

/-- Decides that, running the pure kernel g from acc over the listed rows,
the break predicate br never fires. -/
def noBreakRun (g : V → V → V) (br : V → V → Bool) : V → List V → Bool
  | _, [] => true
  | acc, r :: rs => !(br acc r) && noBreakRun g br (g acc r) rs

/-- The i-th row of every argument (used to state the rowsn_1 behavior). -/
def rowsAt (args : List (Arr T)) (i : Nat) : List (Arr T) :=
  args.map (fun a => a.row i)

/-- A concrete pure arity-2 stack function for witnesses. -/
def pureFn2 (g : Arr F64 → Arr F64 → Arr F64) : StackFn (Arr F64) :=
  ⟨2, 1, none, fun st =>
    match st with
    | a :: b :: s => .ok (g a b :: s, false)
    | _ => .error "stack underflow"⟩

/-- A concrete pure arity-2 stack function with a break predicate and break
junk, for witnesses. -/
def pureFn2Br (g : Arr F64 → Arr F64 → Arr F64) (br : Arr F64 → Arr F64 → Bool)
    (j : Arr F64 → Arr F64 → List (Arr F64)) : StackFn (Arr F64) :=
  ⟨2, 1, none, fun st =>
    match st with
    | a :: b :: s => .ok (g a b :: (if br a b then j a b else []) ++ s, br a b)
    | _ => .error "stack underflow"⟩

/-- A concrete pure arity-1 stack function for witnesses. -/
def pureFn1 (g : Arr F64 → Arr F64) : StackFn (Arr F64) :=
  ⟨1, 1, none, fun st =>
    match st with
    | a :: s => .ok (g a :: s, false)
    | _ => .error "stack underflow"⟩

/-- A concrete identity stack function for witnesses and counterexamples. -/
def idFn : StackFn (Arr F64) := pureFn1 (fun a => a)

/-- A concrete recognized-primitive stack function; the fast paths never
invoke call. -/
def primFn (p : Primitive) (flipped : Bool) : StackFn (Arr F64) :=
  ⟨2, 1, some (p, flipped), fun _ => .error "call is not used on the fast path"⟩

/-- A concrete pure arity-3 stack function for the C8 counterexample. -/
def pureFn3 (g : Arr F64 → Arr F64 → Arr F64 → Arr F64) : StackFn (Arr F64) :=
  ⟨3, 1, none, fun st =>
    match st with
    | a :: b :: c :: s => .ok (g a b c :: s, false)
    | _ => .error "stack underflow"⟩

/-! ### Helper lemmas about lists, slices and scans -/

theorem scanl_getD (g : A → A → A) (d : A) :
    ∀ (l : List A) (a : A) (i : Nat), i ≤ l.length →
      (List.scanl g a l).getD i d = (l.take i).foldl g a := by
  intro l
  induction l with
  | nil =>
      intro a i hi
      have h0 : i = 0 := Nat.le_zero.mp hi
      subst h0
      rfl
  | cons x xs ih =>
      intro a i hi
      cases i with
      | zero => rfl
      | succ n =>
          have hn : n ≤ xs.length := Nat.succ_le_succ_iff.mp hi
          simp only [List.scanl_cons, List.take_succ_cons, List.foldl_cons,
            List.singleton_append, List.getD_cons_succ]
          exact ih (g a x) n hn

theorem drop_take_one (d : A) :
    ∀ (l : List A) (i : Nat), i < l.length → (l.drop i).take 1 = [l.getD i d] := by
  intro l
  induction l with
  | nil => intro i hi; simp at hi
  | cons x xs ih =>
      intro i hi
      cases i with
      | zero => rfl
      | succ n =>
          simp only [List.drop_succ_cons, List.getD_cons_succ]
          exact ih n (by simpa using hi)

theorem flatten_slice (rl : Nat) :
    ∀ (cs : List (List A)) (i : Nat), (∀ c ∈ cs, c.length = rl) →
      i < cs.length → ((cs.flatten).drop (i * rl)).take rl = cs.getD i [] := by
  intro cs
  induction cs with
  | nil => intro i _ hi; simp at hi
  | cons c cs ih =>
      intro i hlen hi
      have hc : c.length = rl := hlen c (by simp)
      cases i with
      | zero =>
          simp only [Nat.zero_mul, List.drop_zero, List.flatten_cons,
            List.getD_cons_zero]
          rw [← hc, List.take_left]
      | succ n =>
          have hmul : (n + 1) * rl = c.length + n * rl := by
            rw [hc]; ring
          rw [List.flatten_cons, hmul, ← List.drop_drop,
            List.drop_left, List.getD_cons_succ]
          exact ih n (fun x hx => hlen x (by simp [hx])) (by simpa using hi)

theorem rl_le_sub_mul {i k rl : Nat} (h : i < k) : rl ≤ (k - i) * rl := by
  have h1 : 1 ≤ k - i := by omega
  calc rl = 1 * rl := (one_mul rl).symm
    _ ≤ (k - i) * rl := Nat.mul_le_mul_right rl h1

theorem slice_of_take {data : List A} {rl k i : Nat} (hik : i < k) :
    ((data.take (k * rl)).drop (i * rl)).take rl = (data.drop (i * rl)).take rl := by
  rw [List.drop_take, List.take_take]
  have hsub : k * rl - i * rl = (k - i) * rl := by
    rw [Nat.sub_mul]
  rw [hsub, Nat.min_eq_left (rl_le_sub_mul hik)]

theorem sliceRows_take (rl rc k : Nat) (data : List A) (hk : k ≤ rc) :
    sliceRows rl k (data.take (k * rl)) = (sliceRows rl rc data).take k := by
  unfold sliceRows
  rw [← List.map_take, List.take_range, Nat.min_def]
  simp only [if_pos hk]
  exact List.map_congr_left (fun i hi => slice_of_take (List.mem_range.mp hi))

theorem sliceRows_length (rl rc : Nat) (data : List A) :
    (sliceRows rl rc data).length = rc := by
  simp [sliceRows]

theorem sliceRows_chunk_length (rl rc : Nat) (data : List A)
    (h : data.length = rc * rl) :
    ∀ c ∈ sliceRows rl rc data, c.length = rl := by
  intro c hc
  simp only [sliceRows, List.mem_map, List.mem_range] at hc
  obtain ⟨i, hi, rfl⟩ := hc
  have hdl : (data.drop (i * rl)).length = (rc - i) * rl := by
    simp [List.length_drop, h, Nat.sub_mul]
  simp [List.length_take, hdl, Nat.min_eq_left (rl_le_sub_mul hi)]

theorem sliceRows_getD (rl rc i : Nat) (data : List A) (hi : i < rc) :
    (sliceRows rl rc data).getD i [] = (data.drop (i * rl)).take rl := by
  unfold sliceRows
  rw [List.getD_eq_getElem?_getD, List.getElem?_map]
  simp [List.getElem?_range hi]

theorem rows_getD (a : Arr T) (i : Nat) (d : Arr T) (hi : i < a.row_count) :
    a.rows.getD i d = a.row i := by
  unfold Arr.rows
  rw [List.getD_eq_getElem?_getD, List.getElem?_map]
  simp [List.getElem?_range hi]

theorem rows_length (a : Arr T) : a.rows.length = a.row_count := by
  simp [Arr.rows]

/-- Row extraction from a stacked array recovers the stacked values. -/
theorem stacked_row (sh : List Nat) (vs : List (Arr T)) (i : Nat) (d : Arr T)
    (hsh : ∀ v ∈ vs, v.shape = sh) (hlen : ∀ v ∈ vs, v.data.length = sh.prod)
    (hi : i < vs.length) :
    (Arr.mk (vs.length :: sh) ((vs.map Arr.data).flatten)).row i = vs.getD i d := by
  have hmem : vs.getD i d ∈ vs := by
    rw [List.getD_eq_getElem?_getD, List.getElem?_eq_getElem hi]
    exact List.getElem_mem hi
  have hdata : (vs.map Arr.data).getD i [] = (vs.getD i d).data := by
    rw [List.getD_eq_getElem?_getD, List.getElem?_map,
      List.getElem?_eq_getElem hi, List.getD_eq_getElem?_getD,
      List.getElem?_eq_getElem hi]
    rfl
  have hslice := flatten_slice sh.prod (vs.map Arr.data) i
    (by intro c hc
        obtain ⟨v, hv, rfl⟩ := List.mem_map.mp hc
        exact hlen v hv)
    (by simpa using hi)
  unfold Arr.row Arr.row_len
  simp only [List.tail_cons]
  rw [hslice, hdata, ← hsh _ hmem]

/-! ### Generic fold: pure-run lemmas -/

theorem generic_fold2_go_pure {f : StackFn (Arr T)} {g} (hf : IsPure2 f g) :
    ∀ (rows : List (Arr T)) (acc : Arr T) (stack : List (Arr T)),
      generic_fold2_go f acc rows stack = .ok (rows.foldl g acc :: stack) := by
  intro rows
  induction rows with
  | nil => intro acc stack; rfl
  | cons r rs ih =>
      intro acc stack
      rw [generic_fold2_go, hf.2]
      simpa [popv] using ih (g acc r) stack

/-- Claim C1.  For every arity-2 pure function f, reduce over an array with
at least one row is the left fold of the kernel over the rows seeded from
the first row; with row_count 0 and no initial value it is the error
"Cannot reduce empty array"; and for a non-primitive function the reduce
dispatcher is exactly generic_fold with no initial value. -/
theorem C1_reduce_is_left_fold :
    (∀ {T : Type} (f : StackFn (Arr T)) (g : Arr T → Arr T → Arr T)
        (xs : Arr T) (stack : List (Arr T)) (r0 : Arr T) (rest : List (Arr T)),
        IsPure2 f g → xs.rows = r0 :: rest →
        generic_fold f xs none stack = .ok (rest.foldl g r0 :: stack)) ∧
    (∀ {T : Type} (f : StackFn (Arr T)) (xs : Arr T) (stack : List (Arr T)),
        f.args = 2 → xs.row_count = 0 →
        generic_fold f xs none stack = .error "Cannot reduce empty array") ∧
    (∀ (f : StackFn (Arr F64)) (xs : Arr F64) (stack : List (Arr F64)),
        f.prim = none → reduce_num f xs stack = generic_fold f xs none stack) := by
  refine ⟨?_, ?_, ?_⟩
  · intro T f g xs stack r0 rest hf hrows
    simp only [generic_fold, hf.1, hrows]
    exact generic_fold2_go_pure hf rest r0 stack
  · intro T f xs stack ha h0
    have hrows : xs.rows = [] := by
      unfold Arr.rows
      rw [h0]
      rfl
    simp only [generic_fold, ha, hrows]
  · intro f xs stack hp
    rw [reduce_num, hp]

/-- Witness for C1 at concrete inputs. -/
theorem C1_reduce_is_left_fold_witness :
    generic_fold (pureFn2 (fun a _ => a)) (⟨[2], [.fin 1, .fin 2]⟩ : Arr F64)
        none [] = .ok [⟨[], [.fin 1]⟩] ∧
    generic_fold (pureFn2 (fun a _ => a)) (⟨[0], []⟩ : Arr F64) none [] =
      .error "Cannot reduce empty array" ∧
    reduce_num (pureFn2 (fun a _ => a)) (⟨[2], [.fin 1, .fin 2]⟩ : Arr F64) [] =
      generic_fold (pureFn2 (fun a _ => a)) (⟨[2], [.fin 1, .fin 2]⟩ : Arr F64)
        none [] := by
  refine ⟨?_, ?_, ?_⟩
  · exact C1_reduce_is_left_fold.1 (pureFn2 (fun a _ => a)) (fun a _ => a) _ []
      ⟨[], [.fin 1]⟩ [⟨[], [.fin 2]⟩] ⟨rfl, fun a b s => rfl⟩ (by decide)
  · exact C1_reduce_is_left_fold.2.1 (pureFn2 (fun a _ => a)) _ [] rfl (by decide)
  · exact C1_reduce_is_left_fold.2.2 (pureFn2 (fun a _ => a)) _ [] rfl

/-! ### Claim C7: fast reduce identities on empty arrays -/

theorem fast_reduce_empty (idv : R) (f : R → T → R) (conv : T → R)
    (rest : List Nat) (xs : Arr T) (hsh : xs.shape = 0 :: rest)
    (hd : xs.data = []) :
    fast_reduce xs idv f conv =
      if rest = [] then ⟨[], [idv]⟩ else ⟨rest, List.replicate rest.prod idv⟩ := by
  cases rest with
  | nil => simp [fast_reduce, hsh, hd]
  | cons r1 rs =>
      have hrc : xs.row_count = 0 := by simp [Arr.row_count, hsh]
      simp [fast_reduce, hsh, hrc]

/-- Claim C7.  For each primitive in the set of add, mul, max, min, the fast
reduce path over a Num or Byte array with empty leading dimension returns
the identity element paired with it by the dispatch: as a scalar at rank 1,
and replicated to shape[1..] at rank 2 and above. -/
theorem C7_fast_reduce_identity_on_empty :
    (∀ (p : Primitive), p ∈ [Primitive.add, .mul, .max, .min] →
      ∀ (fl : Bool) (f : StackFn (Arr F64)) (rest : List Nat) (xs : Arr F64)
        (stack : List (Arr F64)),
        f.prim = some (p, fl) → xs.shape = 0 :: rest → xs.data = [] →
        reduce_num f xs stack =
          .ok ((if rest = [] then (⟨[], [identityOf p]⟩ : Arr F64)
                else ⟨rest, List.replicate rest.prod (identityOf p)⟩) :: stack)) ∧
    (∀ (p : Primitive), p ∈ [Primitive.add, .mul, .max, .min] →
      ∀ (fl : Bool) (rest : List Nat) (ys : Arr Nat),
        ys.shape = 0 :: rest → ys.data = [] →
        reduce_fast_byte p fl ys =
          some (if rest = [] then (⟨[], [identityOf p]⟩ : Arr F64)
                else ⟨rest, List.replicate rest.prod (identityOf p)⟩)) := by
  constructor
  · intro p hp fl f rest xs stack hprim hsh hd
    fin_cases hp <;>
      simp [reduce_num, hprim, reduce_fast_num, identityOf,
        fast_reduce_empty _ _ _ rest xs hsh hd]
  · intro p hp fl rest ys hsh hd
    fin_cases hp <;>
      simp [reduce_fast_byte, identityOf,
        fast_reduce_empty _ _ _ rest ys hsh hd]

/-- Witness for C7 at concrete inputs: an empty rank-1 Num array with max,
and an empty-leading-dimension rank-2 Byte array with add. -/
theorem C7_fast_reduce_identity_on_empty_witness :
    reduce_num (primFn .max false) (⟨[0], []⟩ : Arr F64) [] =
      .ok [⟨[], [.negInf]⟩] ∧
    reduce_fast_byte .add false (⟨[0, 2], []⟩ : Arr Nat) =
      some ⟨[2], [.fin 0, .fin 0]⟩ := by
  constructor
  · have h := C7_fast_reduce_identity_on_empty.1 .max (by decide) false
      (primFn .max false) [] ⟨[0], []⟩ [] rfl rfl rfl
    simpa [identityOf] using h
  · have h := C7_fast_reduce_identity_on_empty.2 .add (by decide) false
      [2] ⟨[0, 2], []⟩ rfl rfl
    simpa [identityOf, List.replicate] using h

/-! ### Claim C2: reduce with the subtraction primitive -/

/-- Counterexample to claim C2 as stated: with the non-flipped subtraction
primitive, reduce over the Num array [10 1 2] returns 11 (the value the
claim attributes to the flipped case), not 7. -/
theorem C2_counterexample :
    reduce_num (primFn .sub false) (⟨[3], [.fin 10, .fin 1, .fin 2]⟩ : Arr F64) []
        = .ok [⟨[], [.fin 11]⟩] ∧
    (Arr.mk [] [F64.fin 11] : Arr F64) ≠ ⟨[], [.fin 7]⟩ := by
  constructor
  · norm_num [reduce_num, primFn, reduce_fast_num, fast_reduce, flip, F64.sub,
      F64.add, F64.neg]
  · decide

/-- Claim C2 as amended: the non-flipped subtraction reduce of [10 1 2]
computes (2 - (1 - 10)) = 11, and the flipped one computes
((10 - 1) - 2) = 7; the claim had the two cases swapped. -/
theorem C2_reduce_sub_amended :
    reduce_num (primFn .sub false) (⟨[3], [.fin 10, .fin 1, .fin 2]⟩ : Arr F64) []
        = .ok [⟨[], [.fin (2 - (1 - 10))]⟩] ∧
    reduce_num (primFn .sub true) (⟨[3], [.fin 10, .fin 1, .fin 2]⟩ : Arr F64) []
        = .ok [⟨[], [.fin ((10 - 1) - 2)]⟩] := by
  constructor
  · norm_num [reduce_num, primFn, reduce_fast_num, fast_reduce, flip, F64.sub,
      F64.add, F64.neg]
  · norm_num [reduce_num, primFn, reduce_fast_num, fast_reduce, flip, F64.sub,
      F64.add, F64.neg]

/-! ### Claim C6: group_groups bucket construction -/

theorem getD_set_self (l : List A) (i : Nat) (a d : A) (hi : i < l.length) :
    (l.set i a).getD i d = a := by
  rw [List.getD_eq_getElem?_getD, List.getElem?_set]
  simp [hi]

theorem getD_set_ne (l : List A) (i j : Nat) (a d : A) (hne : i ≠ j) :
    (l.set i a).getD j d = l.getD j d := by
  rw [List.getD_eq_getElem?_getD, List.getElem?_set, if_neg hne,
    ← List.getD_eq_getElem?_getD]

theorem getD_replicate_nil (n g : Nat) :
    (List.replicate n ([] : List A)).getD g [] = [] := by
  rw [List.getD_eq_getElem?_getD, List.getElem?_replicate]
  split <;> rfl

theorem mem_le_of_max? {l : List Int} {m x : Int} (h : l.max? = some m)
    (hx : x ∈ l) : x ≤ m := by
  have ha : Std.Antisymm (fun (x y : Int) => x ≤ y) :=
    ⟨fun {_ _} h1 h2 => le_antisymm h1 h2⟩
  rw [List.max?_eq_some_iff (fun a => le_refl a) max_choice
    (fun a b c => max_le_iff)] at h
  exact h.2 x hx

theorem bucket_fold_length (xs : Arr T) :
    ∀ (ps : List (Nat × Int)) (gs : List (List (Arr T))),
      (ps.foldl (bucketStep xs) gs).length = gs.length := by
  intro ps
  induction ps with
  | nil => intro gs; rfl
  | cons p rest ih =>
      intro gs
      rw [List.foldl_cons, ih]
      unfold bucketStep
      split <;> simp

theorem bucket_fold_getD (xs : Arr T) :
    ∀ (ps : List (Nat × Int)) (gs : List (List (Arr T))) (g : Nat),
      (∀ p ∈ ps, 0 ≤ p.2 → p.2.toNat < gs.length) →
      (∀ p ∈ ps, p.1 < xs.row_count) →
      (ps.foldl (bucketStep xs) gs).getD g [] =
        gs.getD g [] ++
          (ps.filter (fun p => decide (p.2 = (g : Int)))).map
            (fun p => xs.row p.1) := by
  intro ps
  induction ps with
  | nil => intro gs g _ _; simp
  | cons p rest ih =>
      intro gs g hrange hrc
      rw [List.foldl_cons, List.filter_cons]
      by_cases hneg : 0 ≤ p.2
      · have hstep : bucketStep xs gs p =
            gs.set p.2.toNat ((gs.getD p.2.toNat []) ++ [xs.row p.1]) := by
          unfold bucketStep
          rw [if_pos ⟨hneg, hrc p (by simp)⟩]
        have hlen : p.2.toNat < gs.length := hrange p (by simp) hneg
        by_cases heq : p.2 = (g : Int)
        · have htn : p.2.toNat = g := by omega
          rw [hstep, if_pos (by simpa using heq),
            ih _ g
              (fun q hq hq2 => by
                rw [List.length_set]; exact hrange q (by simp [hq]) hq2)
              (fun q hq => hrc q (by simp [hq])),
            htn, getD_set_self _ _ _ _ (htn ▸ hlen)]
          simp
        · have htn : p.2.toNat ≠ g := by omega
          rw [hstep, if_neg (by simpa using heq),
            ih _ g
              (fun q hq hq2 => by
                rw [List.length_set]; exact hrange q (by simp [hq]) hq2)
              (fun q hq => hrc q (by simp [hq])),
            getD_set_ne _ _ _ _ _ htn]
      · have hstep : bucketStep xs gs p = gs := by
          unfold bucketStep
          rw [if_neg (by tauto)]
        have heq : ¬ (p.2 = (g : Int)) := by omega
        rw [hstep, if_neg (by simpa using heq)]
        exact ih _ g (fun q hq hq2 => hrange q (by simp [hq]) hq2)
          (fun q hq => hrc q (by simp [hq]))

theorem group_groups_nonempty_eq {T : Type} (xs : Arr T) (indices : List Int)
    (m : Int) (hmax : indices.max? = some m)
    (hlen : indices.length = xs.row_count) :
    xs.group_groups indices =
      .ok (((buildBuckets xs indices ((Max.max m 0).toNat + 1)).reverse).map
        from_row_arrays) := by
  unfold Arr.group_groups
  rw [if_neg (by omega), hmax]

/-- Counterexample to claim C6 as stated: with an empty index list (legal for
an array with zero rows), group_groups returns zero buckets, not
max(M, 0) + 1 = 1 bucket. -/
theorem C6_counterexample :
    Arr.group_groups (⟨[0], []⟩ : Arr F64) [] = .ok [] ∧
    ([] : List (Arr F64)).length ≠ (Max.max (-1 : Int) 0).toNat + 1 := by
  constructor
  · rfl
  · decide

/-- Claim C6 as amended: when the index list is nonempty (with maximum m),
group_groups allocates max(m, 0) + 1 buckets (so one bucket when all indices
are negative), appends row r to bucket g for every pair (r, g) with g
nonnegative, and returns the per-bucket reassemblies in reverse order; when
the index list is empty it returns no buckets at all. -/
theorem C6_group_groups_amended :
    ∀ {T : Type} (xs : Arr T) (indices : List Int) (m : Int),
      indices.max? = some m → indices.length = xs.row_count →
      (xs.group_groups indices =
        .ok (((buildBuckets xs indices ((Max.max m 0).toNat + 1)).reverse).map
          from_row_arrays)) ∧
      (buildBuckets xs indices ((Max.max m 0).toNat + 1)).length =
        (Max.max m 0).toNat + 1 ∧
      (∀ g : Nat,
        (buildBuckets xs indices ((Max.max m 0).toNat + 1)).getD g [] =
          ((indices.enum.filter (fun p => decide (p.2 = (g : Int)))).map
            (fun p => xs.row p.1))) := by
  intro T xs indices m hmax hlen
  refine ⟨?_, ?_, ?_⟩
  · exact group_groups_nonempty_eq xs indices m hmax hlen
  · unfold buildBuckets
    rw [bucket_fold_length, List.length_replicate]
  · intro g
    unfold buildBuckets
    rw [bucket_fold_getD xs _ _ g
      (fun p hp hp2 => by
        have hmem := List.mem_enum hp
        have hle : p.2 ≤ m := by
          apply mem_le_of_max? hmax
          rw [hmem.2]
          exact List.getElem_mem hmem.1
        rw [List.length_replicate]
        omega)
      (fun p hp => by
        have hmem := List.mem_enum hp
        omega),
      getD_replicate_nil]
    simp

/-- Witness for the amended C6 at a concrete input. -/
theorem C6_group_groups_amended_witness :
    Arr.group_groups (⟨[3], [.fin 5, .fin 6, .fin 7]⟩ : Arr F64) [1, -2, 1] =
      .ok (((buildBuckets (⟨[3], [.fin 5, .fin 6, .fin 7]⟩ : Arr F64) [1, -2, 1]
        ((Max.max (1 : Int) 0).toNat + 1)).reverse).map from_row_arrays) ∧
    (buildBuckets (⟨[3], [.fin 5, .fin 6, .fin 7]⟩ : Arr F64) [1, -2, 1]
      ((Max.max (1 : Int) 0).toNat + 1)).length = (Max.max (1 : Int) 0).toNat + 1 := by
  have h := C6_group_groups_amended (⟨[3], [.fin 5, .fin 6, .fin 7]⟩ : Arr F64)
    [1, -2, 1] 1 (by decide) (by decide)
  exact ⟨h.1, h.2.1⟩

/-! ### Claim C5: group with an identity collapse -/

theorem collapse01_go_id {f : StackFn (Arr T)} (hf : IsIdFn f) (name : String) :
    ∀ (groups vals stack : List (Arr T)),
      collapse01_go f name groups vals stack = .ok (vals ++ groups, stack) := by
  intro groups
  induction groups with
  | nil => intro vals stack; simp [collapse01_go]
  | cons gp rest ih =>
      intro vals stack
      rw [collapse01_go, hf.2]
      simpa [popv] using ih (vals ++ [gp]) stack

/-- Counterexample to claim C5 as stated: grouping [0 1] over the rank-1
array with rows 0 and 1 and collapsing with the identity yields the array
whose data lists bucket 0 first ([0, 1]), not bucket M = 1 first ([1, 0]). -/
theorem C5_counterexample :
    group idFn [0, 1] (⟨[2], [.fin 0, .fin 1]⟩ : Arr F64) [] =
      .ok [⟨[2, 1], [.fin 0, .fin 1]⟩] ∧
    (Arr.mk [2, 1] [F64.fin 0, F64.fin 1] : Arr F64) ≠ ⟨[2, 1], [.fin 1, .fin 0]⟩ := by
  constructor
  · rfl
  · decide

/-- Claim C5 as amended: group with an identity-like arity-1 collapse
function reassembles the rows whose indices are nonnegative in the bucket
order (the rows of bucket 0 first, those of bucket M last): the buckets are
produced in reverse order, but the collapse phase reverses its collected
results again before reassembly. -/
theorem C5_group_identity_amended :
    ∀ {T : Type} (f : StackFn (Arr T)) (xs : Arr T) (indices : List Int)
      (m : Int) (stack : List (Arr T)),
      IsIdFn f → indices.max? = some m → indices.length = xs.row_count →
      group f indices xs stack =
        (from_row_values ((buildBuckets xs indices ((Max.max m 0).toNat + 1)).map
          from_row_arrays)).map (fun v => v :: stack) := by
  intro T f xs indices m stack hf hmax hlen
  unfold group
  rw [group_groups_nonempty_eq xs indices m hmax hlen]
  simp only [collapse_groups, hf.1, collapse01_go_id hf, List.nil_append]
  rw [List.map_reverse, List.reverse_reverse]
  cases h : from_row_values
      ((buildBuckets xs indices ((Max.max m 0).toNat + 1)).map from_row_arrays) <;>
    simp [Except.map, h]

/-- Witness for the amended C5 at a concrete input. -/
theorem C5_group_identity_amended_witness :
    group idFn [0, 1] (⟨[2], [.fin 0, .fin 1]⟩ : Arr F64) [] =
      (from_row_values ((buildBuckets (⟨[2], [.fin 0, .fin 1]⟩ : Arr F64) [0, 1]
        ((Max.max (1 : Int) 0).toNat + 1)).map from_row_arrays)).map
        (fun v => v :: []) :=
  C5_group_identity_amended idFn _ [0, 1] 1 [] ⟨rfl, fun a s => rfl⟩
    (by decide) (by decide)

/-! ### Claim C4: table and cross result shapes -/

theorem from_row_values_uniform (c : List Nat) :
    ∀ (vs : List (Arr T)), vs ≠ [] → (∀ v ∈ vs, v.shape = c) →
      from_row_values vs = .ok ⟨vs.length :: c, (vs.map Arr.data).flatten⟩ := by
  intro vs hne hsh
  match vs with
  | [] => exact absurd rfl hne
  | r :: rest =>
      have hr : r.shape = c := hsh r (by simp)
      have hall : (rest.all fun s => decide (s.shape = r.shape)) = true := by
        rw [List.all_eq_true]
        intro v hv
        rw [hsh v (by simp [hv]), hr]
        simp
      simp only [from_row_values, hall, if_true, hr]
      rw [if_pos (by rw [← hr]; exact hall)]

theorem table_inner_pure {f : StackFn (Arr T)} {g} (hf : IsPure2 f g) (x : Arr T) :
    ∀ (ys items stack : List (Arr T)),
      table_inner f x ys items stack = .ok (items ++ ys.map (g x), stack) := by
  intro ys
  induction ys with
  | nil => intro items stack; simp [table_inner]
  | cons y yt ih =>
      intro items stack
      rw [table_inner, hf.2]
      simpa [popv] using ih (items ++ [g x y]) stack

theorem table_outer_pure {f : StackFn (Arr T)} {g} (hf : IsPure2 f g) :
    ∀ (xs ys items stack : List (Arr T)),
      table_outer f xs ys items stack =
        .ok (items ++ (xs.map (fun x => ys.map (g x))).flatten, stack) := by
  intro xs
  induction xs with
  | nil => intro ys items stack; simp [table_outer]
  | cons x xt ih =>
      intro ys items stack
      rw [table_outer, table_inner_pure hf]
      simp [ih, List.append_assoc]

theorem cross_inner_pure {f : StackFn (Arr T)} {g} (hf : IsPure2 f g) (x : Arr T) :
    ∀ (ys items stack : List (Arr T)),
      cross_inner f x ys items stack = .ok (items ++ ys.map (g x), stack) := by
  intro ys
  induction ys with
  | nil => intro items stack; simp [cross_inner]
  | cons y yt ih =>
      intro items stack
      rw [cross_inner, hf.2]
      simpa [popv] using ih (items ++ [g x y]) stack

theorem cross_outer_pure {f : StackFn (Arr T)} {g} (hf : IsPure2 f g) :
    ∀ (xs ys items stack : List (Arr T)),
      cross_outer f xs ys items stack =
        .ok (items ++ (xs.map (fun x => ys.map (g x))).flatten, stack) := by
  intro xs
  induction xs with
  | nil => intro ys items stack; simp [cross_outer]
  | cons x xt ih =>
      intro ys items stack
      rw [cross_outer, cross_inner_pure hf]
      simp [ih, List.append_assoc]

/-- Claim C4.  The shape of table is shape(xs) ++ shape(ys) ++ cell shape:
scalar cells on the arithmetic fast path, a trailing axis of 2 on the
join-or-couple fast path, and the shape of the produced cell on the generic
path; cross is analogous with the two row counts in front. -/
theorem C4_table_cross_shapes :
    (∀ {A B C : Type} (a : Arr A) (b : Arr B) (f : A → B → C),
        (fast_table a b f).shape = a.shape ++ b.shape) ∧
    (∀ {T : Type} (a b : Arr T),
        (fast_table_join_or_couple a b).shape = a.shape ++ b.shape ++ [2]) ∧
    (∀ {T : Type} (f : StackFn (Arr T)) (g : Arr T → Arr T → Arr T)
        (xs ys : Arr T) (stack : List (Arr T)) (c : List Nat),
        IsPure2 f g → (∀ x y, (g x y).shape = c) →
        xs.data ≠ [] → ys.data ≠ [] →
        ∃ res, generic_table f xs ys stack = .ok (res :: stack) ∧
          res.shape = xs.shape ++ ys.shape ++ c) ∧
    (∀ {T : Type} (f : StackFn (Arr T)) (g : Arr T → Arr T → Arr T)
        (xs ys : Arr T) (stack : List (Arr T)) (c : List Nat),
        IsPure2 f g → (∀ x y, (g x y).shape = c) →
        1 ≤ xs.row_count → 1 ≤ ys.row_count →
        ∃ res, cross f xs ys stack = .ok (res :: stack) ∧
          res.shape = xs.row_count :: ys.row_count :: c) := by
  refine ⟨fun a b f => rfl, fun a b => rfl, ?_, ?_⟩
  · intro T f g xs ys stack c hf hc hxs hys
    obtain ⟨x, xt, hx⟩ := List.exists_cons_of_ne_nil hxs
    obtain ⟨y, yt, hy⟩ := List.exists_cons_of_ne_nil hys
    have hne : ((xs.flat_values).map (fun v => (ys.flat_values).map (g v))).flatten
        ≠ [] := by
      simp [Arr.flat_values, hx, hy]
    have hmem : ∀ v ∈ ((xs.flat_values).map
        (fun v => (ys.flat_values).map (g v))).flatten, v.shape = c := by
      intro v hv
      simp only [List.mem_flatten, List.mem_map] at hv
      obtain ⟨l, ⟨w, _, rfl⟩, hvl⟩ := hv
      obtain ⟨u, _, rfl⟩ := List.mem_map.mp hvl
      exact hc w u
    have houter := table_outer_pure hf xs.flat_values ys.flat_values [] stack
    rw [List.nil_append] at houter
    have hfrv := from_row_values_uniform c _ hne hmem
    simp only [generic_table, houter, hfrv]
    exact ⟨_, rfl, by simp⟩
  · intro T f g xs ys stack c hf hc hxs hys
    have hxsne : xs.rows ≠ [] := by
      have := rows_length xs
      intro hcon
      rw [hcon] at this
      simp at this
      omega
    have hysne : ys.rows ≠ [] := by
      have := rows_length ys
      intro hcon
      rw [hcon] at this
      simp at this
      omega
    obtain ⟨x, xt, hx⟩ := List.exists_cons_of_ne_nil hxsne
    obtain ⟨y, yt, hy⟩ := List.exists_cons_of_ne_nil hysne
    have hne : ((xs.rows).map (fun v => (ys.rows).map (g v))).flatten ≠ [] := by
      simp [hx, hy]
    have hmem : ∀ v ∈ ((xs.rows).map (fun v => (ys.rows).map (g v))).flatten,
        v.shape = c := by
      intro v hv
      simp only [List.mem_flatten, List.mem_map] at hv
      obtain ⟨l, ⟨w, _, rfl⟩, hvl⟩ := hv
      obtain ⟨u, _, rfl⟩ := List.mem_map.mp hvl
      exact hc w u
    have houter := cross_outer_pure hf xs.rows ys.rows [] stack
    rw [List.nil_append] at houter
    have hfrv := from_row_values_uniform c _ hne hmem
    simp only [cross, houter, hfrv]
    exact ⟨_, rfl, by simp⟩

/-- Witness for C4 at concrete inputs (generic table and cross with a
constant scalar-cell function). -/
theorem C4_table_cross_shapes_witness :
    (∃ res, generic_table (pureFn2 (fun _ _ => ⟨[], [.fin 9]⟩))
        (⟨[2], [.fin 1, .fin 2]⟩ : Arr F64) ⟨[3], [.fin 3, .fin 4, .fin 5]⟩ [] =
        .ok (res :: []) ∧ res.shape = [2] ++ [3] ++ []) ∧
    (∃ res, cross (pureFn2 (fun _ _ => ⟨[], [.fin 9]⟩))
        (⟨[2], [.fin 1, .fin 2]⟩ : Arr F64) ⟨[3], [.fin 3, .fin 4, .fin 5]⟩ [] =
        .ok (res :: []) ∧
        res.shape = (⟨[2], [.fin 1, .fin 2]⟩ : Arr F64).row_count ::
          (⟨[3], [.fin 3, .fin 4, .fin 5]⟩ : Arr F64).row_count :: []) := by
  constructor
  · exact C4_table_cross_shapes.2.2.1 (pureFn2 (fun _ _ => ⟨[], [.fin 9]⟩))
      (fun _ _ => ⟨[], [.fin 9]⟩) _ _ [] [] ⟨rfl, fun a b s => rfl⟩
      (fun x y => rfl) (by decide) (by decide)
  · exact C4_table_cross_shapes.2.2.2 (pureFn2 (fun _ _ => ⟨[], [.fin 9]⟩))
      (fun _ _ => ⟨[], [.fin 9]⟩) _ _ [] [] ⟨rfl, fun a b s => rfl⟩
      (fun x y => rfl) (by decide) (by decide)

/-! ### Claim C8: row-count checking in rows -/

theorem drop_eq_getD_cons {l : List A} {t : Nat} (d : A) (h : t < l.length) :
    l.drop t = l.getD t d :: l.drop (t + 1) := by
  rw [List.getD_eq_getElem?_getD, List.getElem?_eq_getElem h]
  exact List.drop_eq_getElem_cons h

theorem nextAll_drop (d : V) (t : Nat) :
    ∀ (ls : List (List V)), (∀ l ∈ ls, t < l.length) →
      nextAll (ls.map (fun l => l.drop t)) =
        some (ls.map (fun l => l.getD t d), ls.map (fun l => l.drop (t + 1))) := by
  intro ls
  induction ls with
  | nil => intro _; rfl
  | cons l rest ih =>
      intro h
      have hl := h l (by simp)
      rw [List.map_cons, drop_eq_getD_cons d hl]
      simp only [nextAll, ih (fun q hq => h q (by simp [hq]))]
      simp

theorem rowsn_1_go_pure {T : Type} {f : StackFn (Arr T)} {n : Nat}
    {g : List (Arr T) → Arr T} (hf : IsPureN f n g) :
    ∀ (k t : Nat) (rls : List (List (Arr T))) (vals stack : List (Arr T)),
      rls.length = n → (∀ l ∈ rls, t + k ≤ l.length) →
      rowsn_1_go f k (rls.map (fun l => l.drop t)) vals stack =
        .ok (vals ++ (List.range' t k).map
          (fun i => g (rls.map (fun l => l.getD i ⟨[], []⟩))), stack) := by
  intro k
  induction k with
  | zero => intro t rls vals stack _ _; simp [rowsn_1_go]
  | succ k ih =>
      intro t rls vals stack hn hcov
      have hnext := nextAll_drop (⟨[], []⟩ : Arr T) t rls
        (fun l hl => by have := hcov l hl; omega)
      have hlen : (rls.map (fun l => l.getD t ⟨[], []⟩)).length = n := by
        rw [List.length_map, hn]
      rw [rowsn_1_go, hnext]
      simp only [hf.2 _ stack hlen, popv]
      rw [ih (t + 1) rls (vals ++ [g (rls.map (fun l => l.getD t ⟨[], []⟩))]) stack
        hn (fun l hl => by have := hcov l hl; omega)]
      rw [List.range'_succ]
      simp [List.append_assoc]

theorem rowsn_0_go_pure {T : Type} {f : StackFn (Arr T)} {n : Nat}
    (hf : IsPureN0 f n) :
    ∀ (k t : Nat) (rls : List (List (Arr T))) (stack : List (Arr T)),
      rls.length = n → (∀ l ∈ rls, t + k ≤ l.length) →
      rowsn_0_go f k (rls.map (fun l => l.drop t)) stack = .ok stack := by
  intro k
  induction k with
  | zero => intro t rls stack _ _; simp [rowsn_0_go]
  | succ k ih =>
      intro t rls stack hn hcov
      have hnext := nextAll_drop (⟨[], []⟩ : Arr T) t rls
        (fun l hl => by have := hcov l hl; omega)
      have hlen : (rls.map (fun l => l.getD t ⟨[], []⟩)).length = n := by
        rw [List.length_map, hn]
      rw [rowsn_0_go, hnext]
      simp only [hf.2 _ stack hlen]
      exact ih (t + 1) rls stack hn (fun l hl => by have := hcov l hl; omega)

/-- Counterexample to claim C8 as stated: with three arguments of row counts
1, 2 and 1 (so with differing row counts), rows succeeds and raises no
error; the loop simply runs args[0].row_count times. -/
theorem C8_counterexample :
    rowsn_1 (pureFn3 (fun a _ _ => a))
      [(⟨[1], [.fin 5]⟩ : Arr F64), ⟨[2], [.fin 6, .fin 7]⟩, ⟨[1], [.fin 8]⟩] [] =
      .ok [⟨[1], [.fin 5]⟩] ∧
    (⟨[1], [.fin 5]⟩ : Arr F64).row_count ≠
      (⟨[2], [.fin 6, .fin 7]⟩ : Arr F64).row_count ∧
    ∀ e, rowsn_1 (pureFn3 (fun a _ _ => a))
      [(⟨[1], [.fin 5]⟩ : Arr F64), ⟨[2], [.fin 6, .fin 7]⟩, ⟨[1], [.fin 8]⟩] [] ≠
      .error e := by
  refine ⟨rfl, by decide, ?_⟩
  intro e h
  rw [show rowsn_1 (pureFn3 (fun a _ _ => a))
      [(⟨[1], [.fin 5]⟩ : Arr F64), ⟨[2], [.fin 6, .fin 7]⟩, ⟨[1], [.fin 8]⟩] [] =
      .ok [⟨[1], [.fin 5]⟩] from rfl] at h
  exact Except.noConfusion h

/-- Claim C8 as amended: with exactly two arguments, rows raises the
mismatch error whenever the row counts differ; with three or more
arguments no row-count check is performed: the iteration count is the row
count of the first argument, and when every argument has at least that many rows
the call completes with no error (surplus rows are ignored). -/
theorem C8_rows_row_count_amended :
    (∀ {T : Type} (f : StackFn (Arr T)) (xs ys : Arr T) (stack : List (Arr T)),
        xs.row_count ≠ ys.row_count →
        rows2_1 f xs ys stack =
          .error ("Cannot rows arrays with different number of rows " ++
            toString xs.row_count ++ " and " ++ toString ys.row_count)) ∧
    (∀ {T : Type} (f : StackFn (Arr T)) (n : Nat) (g : List (Arr T) → Arr T)
        (a0 : Arr T) (rest : List (Arr T)) (stack : List (Arr T)),
        IsPureN f n g → (a0 :: rest).length = n →
        (∀ a ∈ a0 :: rest, a0.row_count ≤ a.row_count) →
        rowsn_1 f (a0 :: rest) stack =
          (from_row_values ((List.range a0.row_count).map
            (fun i => g (rowsAt (a0 :: rest) i)))).map (fun v => v :: stack)) ∧
    (∀ {T : Type} (f : StackFn (Arr T)) (n : Nat) (a0 : Arr T)
        (rest : List (Arr T)) (stack : List (Arr T)),
        IsPureN0 f n → (a0 :: rest).length = n →
        (∀ a ∈ a0 :: rest, a0.row_count ≤ a.row_count) →
        rowsn_0 f (a0 :: rest) stack = .ok stack) := by
  refine ⟨?_, ?_, ?_⟩
  · intro T f xs ys stack hne
    unfold rows2_1
    rw [if_pos hne]
  · intro T f n g a0 rest stack hf hn hcov
    have hdrop : (a0 :: rest).map Arr.rows =
        ((a0 :: rest).map Arr.rows).map (fun l => l.drop 0) := by
      simp
    unfold rowsn_1
    rw [List.headD_cons, hdrop,
      rowsn_1_go_pure hf a0.row_count 0 ((a0 :: rest).map Arr.rows) [] stack
        (by rw [List.length_map, hn])
        (by
          intro l hl
          obtain ⟨a, ha, rfl⟩ := List.mem_map.mp hl
          rw [rows_length]
          simpa using hcov a ha),
      List.nil_append]
    have hmap : (List.range' 0 a0.row_count).map
        (fun i => g (((a0 :: rest).map Arr.rows).map (fun l => l.getD i ⟨[], []⟩))) =
        (List.range a0.row_count).map (fun i => g (rowsAt (a0 :: rest) i)) := by
      rw [← List.range_eq_range']
      apply List.map_congr_left
      intro i hi
      have hilt : i < a0.row_count := List.mem_range.mp hi
      congr 1
      rw [List.map_map]
      apply List.map_congr_left
      intro a ha
      show a.rows.getD i ⟨[], []⟩ = a.row i
      exact rows_getD a i _ (by have := hcov a ha; omega)
    rw [hmap]
    cases h : from_row_values ((List.range a0.row_count).map
        (fun i => g (rowsAt (a0 :: rest) i))) <;> simp [Except.map, h]
  · intro T f n a0 rest stack hf hn hcov
    have hdrop : (a0 :: rest).map Arr.rows =
        ((a0 :: rest).map Arr.rows).map (fun l => l.drop 0) := by
      simp
    unfold rowsn_0
    rw [List.headD_cons, hdrop]
    exact rowsn_0_go_pure hf a0.row_count 0 ((a0 :: rest).map Arr.rows) stack
      (by rw [List.length_map, hn])
      (by
        intro l hl
        obtain ⟨a, ha, rfl⟩ := List.mem_map.mp hl
        rw [rows_length]
        simpa using hcov a ha)

/-- Witness for the amended C8 at concrete inputs. -/
theorem C8_rows_row_count_amended_witness :
    rows2_1 idFn (⟨[1], [.fin 5]⟩ : Arr F64) ⟨[2], [.fin 6, .fin 7]⟩ [] =
      .error ("Cannot rows arrays with different number of rows " ++
        toString (1 : Nat) ++ " and " ++ toString (2 : Nat)) ∧
    rowsn_0 (⟨3, 0, none, fun st => .ok (st.drop 3, false)⟩ : StackFn (Arr F64))
      [(⟨[1], [.fin 5]⟩ : Arr F64), ⟨[2], [.fin 6, .fin 7]⟩, ⟨[1], [.fin 8]⟩] [] =
      .ok [] := by
  constructor
  · exact C8_rows_row_count_amended.1 idFn _ _ [] (by decide)
  · exact C8_rows_row_count_amended.2.2
      (⟨3, 0, none, fun st => .ok (st.drop 3, false)⟩ : StackFn (Arr F64)) 3
      (⟨[1], [.fin 5]⟩ : Arr F64) [⟨[2], [.fin 6, .fin 7]⟩, ⟨[1], [.fin 8]⟩] []
      ⟨rfl, fun rs s hrs => by
        show Except.ok ((rs ++ s).drop 3, false) = Except.ok (s, false)
        rw [← hrs, List.drop_left]⟩
      rfl (by decide)

/-! ### Claim C9: level with rank lists [0], [-1] and infinity -/

/-- Counterexample to claim C9 as stated: on a rank-0 array, level with the
infinity rank entry pushes the array back unchanged and never calls f,
whereas calling f once on the whole array does invoke it; with a
non-identity f the two differ (and the same guard also precedes the [0] and
[-1] dispatches). -/
theorem C9_counterexample :
    level1 (pureFn1 (fun _ => ⟨[], [.fin 1]⟩)) none (⟨[], [.fin 0]⟩ : Arr F64) []
      = .ok [⟨[], [.fin 0]⟩] ∧
    call_value (pureFn1 (fun _ => ⟨[], [.fin 1]⟩)) [(⟨[], [.fin 0]⟩ : Arr F64)]
      = .ok [⟨[], [.fin 1]⟩] ∧
    level1 (pureFn1 (fun _ => ⟨[], [.fin 1]⟩)) none (⟨[], [.fin 0]⟩ : Arr F64) []
      ≠ call_value (pureFn1 (fun _ => ⟨[], [.fin 1]⟩)) [(⟨[], [.fin 0]⟩ : Arr F64)] := by
  refine ⟨rfl, rfl, ?_⟩
  rw [show level1 (pureFn1 (fun _ => ⟨[], [.fin 1]⟩)) none
      (⟨[], [.fin 0]⟩ : Arr F64) [] = .ok [⟨[], [.fin 0]⟩] from rfl,
    show call_value (pureFn1 (fun _ => ⟨[], [.fin 1]⟩))
      [(⟨[], [.fin 0]⟩ : Arr F64)] = .ok [⟨[], [.fin 1]⟩] from rfl]
  intro h
  rw [Except.ok.injEq, List.cons.injEq] at h
  have h1 := h.1
  rw [Arr.mk.injEq, List.cons.injEq] at h1
  have h2 := h1.2.1
  rw [F64.fin.injEq] at h2
  norm_num at h2

/-- Claim C9 as amended: for an argument of rank at least 1, level with rank
list [0] is exactly each, with [-1] exactly rows, and with [infinity]
exactly a plain call of f on the whole array; for a rank-0 argument, level
pushes the array back unchanged without calling f, whatever the rank
entry. -/
theorem C9_level_amended :
    ∀ {T : Type} (f : StackFn (Arr T)) (xs : Arr T) (stack : List (Arr T)),
      (1 ≤ xs.rank →
        (level1 f (some 0) xs stack = each1_1 f xs stack ∧
          level1 f (some (-1)) xs stack = rows1_1 f xs stack ∧
          level1 f none xs stack = call_value f (xs :: stack))) ∧
      (∀ n : Option Int, xs.rank = 0 → level1 f n xs stack = .ok (xs :: stack)) := by
  intro T f xs stack
  constructor
  · intro hr
    have hne : ¬ xs.rank = 0 := by omega
    refine ⟨?_, ?_, ?_⟩ <;> simp [level1, hne]
  · intro n h0
    simp [level1, h0]

/-- Witness for the amended C9 at concrete inputs. -/
theorem C9_level_amended_witness :
    (level1 idFn (some 0) (⟨[1], [.fin 3]⟩ : Arr F64) [] =
      each1_1 idFn (⟨[1], [.fin 3]⟩ : Arr F64) []) ∧
    (level1 idFn none (⟨[], [.fin 3]⟩ : Arr F64) [] = .ok [⟨[], [.fin 3]⟩]) := by
  constructor
  · exact ((C9_level_amended idFn _ []).1 (by decide)).1
  · exact (C9_level_amended idFn _ []).2 none rfl

/-! ### Claim C10: break inside the generic scan -/

theorem scanl_head_tail (g : A → A → A) (a : A) (l : List A) :
    List.scanl g a l = a :: (List.scanl g a l).tail := by
  cases l <;> simp [List.scanl_cons]

theorem truncate_append (j s : List V) : truncate_stack s.length (j ++ s) = s := by
  unfold truncate_stack
  rw [List.length_append]
  have h : j.length + s.length - s.length = j.length := by omega
  rw [h, List.drop_left]

theorem generic_scan_go_pure {T : Type} {f : StackFn (Arr T)} {g}
    (hf : IsPure2 f g) :
    ∀ (rows : List (Arr T)) (acc : Arr T) (scanned stack : List (Arr T)),
      generic_scan_go f acc rows scanned stack =
        .ok (scanned ++ (List.scanl g acc rows).tail, stack) := by
  intro rows
  induction rows with
  | nil => intro acc scanned stack; simp [generic_scan_go]
  | cons r rs ih =>
      intro acc scanned stack
      rw [generic_scan_go]
      simp only [hf.2, popv]
      rw [ih (g acc r) (scanned ++ [g acc r]) stack, List.scanl_cons,
        scanl_head_tail g (g acc r) rs]
      simp

theorem generic_scan_go_break {T : Type} {f : StackFn (Arr T)} {g br j}
    (hf : IsPure2Br f g br j) :
    ∀ (pre : List (Arr T)) (acc rb : Arr T) (post scanned stack : List (Arr T)),
      noBreakRun g br acc pre = true →
      br (pre.foldl g acc) rb = true →
      generic_scan_go f acc (pre ++ rb :: post) scanned stack =
        .ok (scanned ++ (List.scanl g acc pre).tail ++ [g (pre.foldl g acc) rb],
          stack) := by
  intro pre
  induction pre with
  | nil =>
      intro acc rb post scanned stack _ hbr
      simp only [List.foldl_nil] at hbr
      rw [List.nil_append, generic_scan_go, hf.2, hbr]
      show Except.ok (scanned ++ [g acc rb],
          truncate_stack stack.length (j acc rb ++ stack)) =
        Except.ok (scanned ++ (List.scanl g acc []).tail ++
          [g (List.foldl g acc []) rb], stack)
      rw [truncate_append]
      simp
  | cons p ps ih =>
      intro acc rb post scanned stack hnb hbr
      have hnb1 : br acc p = false := by
        unfold noBreakRun at hnb
        simp only [Bool.and_eq_true, Bool.not_eq_true'] at hnb
        exact hnb.1
      have hnb2 : noBreakRun g br (g acc p) ps = true := by
        unfold noBreakRun at hnb
        simp only [Bool.and_eq_true] at hnb
        exact hnb.2
      rw [List.cons_append, generic_scan_go, hf.2, hnb1]
      show generic_scan_go f (g acc p) (ps ++ rb :: post)
          (scanned ++ [g acc p]) stack = _
      rw [ih (g acc p) rb post (scanned ++ [g acc p]) stack hnb2
        (by simpa using hbr)]
      rw [List.scanl_cons, scanl_head_tail g (g acc p) ps]
      simp [List.append_assoc]

/-- Claim C10.  When the arity-2 function breaks while the generic scan is
processing row i (after a no-break prefix), the returned value reassembles
the scan outputs for rows 0 through i, the result of the breaking call
having been popped and appended as the final row; the stack is truncated
back to its height recorded just before the breaking call (dropping any
junk that call left), so the lower stack is returned unchanged. -/
theorem C10_generic_scan_break :
    ∀ {T : Type} (f : StackFn (Arr T)) (g : Arr T → Arr T → Arr T)
      (br : Arr T → Arr T → Bool) (j : Arr T → Arr T → List (Arr T))
      (xs : Arr T) (stack : List (Arr T)) (r0 rb : Arr T)
      (pre post : List (Arr T)),
      IsPure2Br f g br j →
      xs.rows = r0 :: (pre ++ rb :: post) →
      noBreakRun g br r0 pre = true →
      br (pre.foldl g r0) rb = true →
      generic_scan f xs stack =
        (from_row_values ((List.scanl g r0 pre) ++ [g (pre.foldl g r0) rb])).map
          (fun v => v :: stack) := by
  intro T f g br j xs stack r0 rb pre post hf hrows hnb hbr
  have hrc : xs.row_count ≠ 0 := by
    intro h0
    have := rows_length xs
    rw [hrows, h0] at this
    simp at this
  have hgo := generic_scan_go_break hf pre r0 rb post [r0] stack hnb hbr
  simp only [generic_scan, if_neg hrc, hrows, hgo]
  rw [List.singleton_append, ← scanl_head_tail]
  cases h : from_row_values (List.scanl g r0 pre ++ [g (pre.foldl g r0) rb]) <;>
    simp [Except.map, h]

/-- Witness for C10 at a concrete input: the function breaks on its first
call and leaves junk on the stack, which the truncation discards. -/
theorem C10_generic_scan_break_witness :
    generic_scan
      (pureFn2Br (fun a _ => a) (fun _ _ => true) (fun _ _ => [⟨[], [.fin 9]⟩]))
      (⟨[3], [.fin 1, .fin 2, .fin 3]⟩ : Arr F64) [⟨[], [.fin 4]⟩] =
      .ok [⟨[2], [.fin 1, .fin 1]⟩, ⟨[], [.fin 4]⟩] := by
  have h := C10_generic_scan_break
    (pureFn2Br (fun a _ => a) (fun _ _ => true) (fun _ _ => [⟨[], [.fin 9]⟩]))
    (fun a _ => a) (fun _ _ => true) (fun _ _ => [⟨[], [.fin 9]⟩])
    (⟨[3], [.fin 1, .fin 2, .fin 3]⟩ : Arr F64) [⟨[], [.fin 4]⟩]
    ⟨[], [.fin 1]⟩ ⟨[], [.fin 2]⟩ [] [⟨[], [.fin 3]⟩]
    ⟨rfl, fun a b s => rfl⟩ (by decide) rfl rfl
  rw [h]
  rfl

/-! ### Claim C3: scan rows are reduces of prefixes -/

theorem scanl_zipWith_length (k : T → T → T) (rl : Nat) :
    ∀ (cs : List (List T)) (c0 : List T), c0.length = rl →
      (∀ c ∈ cs, c.length = rl) →
      ∀ c ∈ List.scanl (fun acc c => List.zipWith k acc c) c0 cs,
        c.length = rl := by
  intro cs
  induction cs with
  | nil =>
      intro c0 h0 _ c hc
      simp only [List.scanl_nil, List.mem_singleton] at hc
      subst hc
      exact h0
  | cons d ds ih =>
      intro c0 h0 hall c hc
      rw [List.scanl_cons] at hc
      simp only [List.singleton_append, List.mem_cons] at hc
      rcases hc with rfl | hc
      · exact h0
      · exact ih (List.zipWith k c0 d)
          (by rw [List.length_zipWith, h0, hall d (by simp)]; simp)
          (fun x hx => hall x (by simp [hx])) c hc

theorem mem_scanl (g : A → A → A) :
    ∀ (l : List A) (a v : A), v ∈ List.scanl g a l →
      v = a ∨ ∃ x y, v = g x y := by
  intro l
  induction l with
  | nil =>
      intro a v hv
      simp only [List.scanl_nil, List.mem_singleton] at hv
      exact Or.inl hv
  | cons x xs ih =>
      intro a v hv
      rw [List.scanl_cons] at hv
      simp only [List.singleton_append, List.mem_cons] at hv
      rcases hv with rfl | hv
      · exact Or.inl rfl
      · rcases ih (g a x) v hv with rfl | h
        · exact Or.inr ⟨a, x, rfl⟩
        · exact Or.inr h

theorem row_data_length (xs : Arr T) (i : Nat) (hv : xs.valid)
    (hi : i < xs.row_count) :
    (xs.row i).data.length = xs.row_len := by
  rcases xs with ⟨sh, data⟩
  rcases sh with _ | ⟨h, tl⟩
  · unfold Arr.valid at hv
    unfold Arr.row_count at hi
    unfold Arr.row Arr.row_len
    simp only [List.headD_nil] at hi
    simp only [List.prod_nil] at hv
    simp only [List.tail_nil, List.prod_nil, List.length_take, List.length_drop, hv]
    omega
  · unfold Arr.valid at hv
    unfold Arr.row_count at hi
    unfold Arr.row Arr.row_len
    simp only [List.headD_cons] at hi
    simp only [List.prod_cons] at hv
    simp only [List.tail_cons, List.length_take, List.length_drop]
    have h1 : (i + 1) * tl.prod ≤ data.length := by
      rw [hv]
      exact Nat.mul_le_mul_right _ hi
    rw [Nat.succ_mul] at h1
    omega

theorem rows_head (xs : Arr T) (r0 : Arr T) (rest : List (Arr T))
    (h : xs.rows = r0 :: rest) : r0 = xs.row 0 := by
  have hrc : 0 < xs.row_count := by
    have hh := rows_length xs
    rw [h] at hh
    simp only [List.length_cons] at hh
    omega
  have h1 : xs.rows.getD 0 r0 = r0 := by rw [h]; rfl
  rw [rows_getD xs 0 r0 hrc] at h1
  exact h1.symm

theorem rows_take_rows (xs : Arr T) (kk : Nat) (hk : kk ≤ xs.row_count) :
    (Arr.take_rows kk xs).rows = (xs.rows).take kk := by
  have hk2 : kk ≤ xs.shape.headD 1 := hk
  unfold Arr.rows Arr.take_rows Arr.row Arr.row_len Arr.row_count
  simp only [List.headD_cons, List.tail_cons]
  rw [← List.map_take, List.take_range, Nat.min_eq_left hk2]
  apply List.map_congr_left
  intro i hi
  have hik : i < kk := List.mem_range.mp hi
  rw [slice_of_take hik]

/-- The fast-kernel heart of claim C3: row i of the fast scan equals the
fast reduce of the first i + 1 rows, for every kernel and (unused) identity
value. -/
theorem fast_scan_row_eq_fast_reduce {T : Type} (k : T → T → T) (idv : T)
    (xs : Arr T) (i : Nat) (hv : xs.valid) (hr : 1 ≤ xs.rank)
    (hi : i < xs.row_count) :
    (fast_scan xs k).row i = fast_reduce (Arr.take_rows (i + 1) xs) idv k id := by
  rcases xs with ⟨sh, data⟩
  unfold Arr.valid at hv
  unfold Arr.rank at hr
  unfold Arr.row_count at hi
  rcases sh with _ | ⟨d0, tl⟩
  · simp at hr
  rcases tl with _ | ⟨r1, rest⟩
  · -- rank 1
    simp only [List.headD_cons] at hi
    simp only [List.prod_cons, List.prod_nil, Nat.mul_one] at hv
    have hd0 : ¬ d0 = 0 := by omega
    obtain ⟨a, ds, hdata⟩ := List.exists_cons_of_ne_nil
      (by rw [← List.length_pos_iff_ne_nil]; omega : data ≠ [])
    subst hdata
    have hlen : ds.length + 1 = d0 := by simpa using hv
    simp only [fast_scan, hd0, if_false, Arr.take_rows, List.tail_cons,
      Arr.row_len, List.prod_nil, Nat.mul_one, List.take_succ_cons,
      fast_reduce, id]
    unfold Arr.row
    simp only [List.tail_cons, Arr.row_len, List.prod_nil, Nat.mul_one]
    rw [drop_take_one a _ i (by rw [List.length_scanl]; omega),
      scanl_getD k a ds a i (by omega)]
  · -- rank 2 and above
    simp only [List.headD_cons] at hi
    simp only [List.prod_cons] at hv
    have hd0 : ¬ d0 = 0 := by omega
    have hslen : (sliceRows ((r1 :: rest).prod) d0 data).length = d0 :=
      sliceRows_length _ _ _
    obtain ⟨c0, cs, hslice⟩ := List.exists_cons_of_ne_nil
      (by rw [← List.length_pos_iff_ne_nil, hslen]; omega :
        sliceRows ((r1 :: rest).prod) d0 data ≠ [])
    have hchunk : ∀ c ∈ sliceRows ((r1 :: rest).prod) d0 data,
        c.length = (r1 :: rest).prod :=
      sliceRows_chunk_length _ _ _ (by rw [hv, List.prod_cons])
    have hc0len : c0.length = (r1 :: rest).prod := hchunk c0 (by rw [hslice]; simp)
    have hcslen : ∀ c ∈ cs, c.length = (r1 :: rest).prod :=
      fun c hc => hchunk c (by rw [hslice]; simp [hc])
    have hcs_count : cs.length + 1 = d0 := by
      rw [← hslen, hslice]
      rfl
    -- the scanned chunk list and its uniform lengths
    have hScanLen : ∀ c ∈ List.scanl (fun acc c => List.zipWith k acc c) c0 cs,
        c.length = (r1 :: rest).prod :=
      scanl_zipWith_length k _ cs c0 hc0len hcslen
    -- left side
    have hlhs : (fast_scan ⟨d0 :: r1 :: rest, data⟩ k).row i =
        ⟨r1 :: rest, (List.scanl (fun acc c => List.zipWith k acc c) c0 cs).getD i []⟩ := by
      simp only [fast_scan, Arr.row_count, List.headD_cons, hd0, if_false, hslice]
      unfold Arr.row
      simp only [List.tail_cons, Arr.row_len]
      rw [flatten_slice _ _ i hScanLen
        (by rw [List.length_scanl]; omega)]
    -- right side
    have hrhs : fast_reduce (Arr.take_rows (i + 1) ⟨d0 :: r1 :: rest, data⟩) idv k id =
        ⟨r1 :: rest, (cs.take i).foldl (fun acc c => List.zipWith k acc c) c0⟩ := by
      unfold Arr.take_rows
      simp only [List.tail_cons, Arr.row_len]
      simp only [fast_reduce, Arr.row_count, List.headD_cons, Nat.succ_ne_zero,
        if_false]
      rw [sliceRows_take _ d0 (i + 1) data (by omega), hslice,
        List.take_succ_cons]
      simp
    rw [hlhs, hrhs, scanl_getD _ [] cs c0 i (by omega)]

theorem scan_reduce_fast_pair (f : StackFn (Arr F64)) (K : F64 → F64 → F64)
    (idv : F64) (xs : Arr F64) (stack : List (Arr F64)) (i : Nat)
    (hv : xs.valid) (hr : 1 ≤ xs.rank) (hi : i < xs.row_count)
    (hscan : scan_num f xs stack = .ok (fast_scan xs K :: stack))
    (hred : reduce_num f (Arr.take_rows (i + 1) xs) [] =
      .ok [fast_reduce (Arr.take_rows (i + 1) xs) idv K id]) :
    ∃ res, scan_num f xs stack = .ok (res :: stack) ∧
      reduce_num f (Arr.take_rows (i + 1) xs) [] = .ok [res.row i] :=
  ⟨fast_scan xs K, hscan, by
    rw [hred, fast_scan_row_eq_fast_reduce K idv xs i hv hr hi]⟩

/-- Claim C3.  Row i of scan(f, xs) is reduce(f, xs[0..=i]): on the fast
path for every recognized primitive (flipped or not), through the scan and
reduce dispatchers, and on the generic path for every pure arity-2 function
whose outputs fit the row shape. -/
theorem C3_scan_row_is_reduce_prefix :
    (∀ (f : StackFn (Arr F64)) (p : Primitive) (fl : Bool) (xs : Arr F64)
        (stack : List (Arr F64)) (i : Nat),
        f.prim = some (p, fl) →
        p ∈ [Primitive.add, .sub, .mul, .div, .max, .min] →
        xs.valid → 1 ≤ xs.rank → i < xs.row_count →
        ∃ res, scan_num f xs stack = .ok (res :: stack) ∧
          reduce_num f (Arr.take_rows (i + 1) xs) [] = .ok [res.row i]) ∧
    (∀ {T : Type} (f : StackFn (Arr T)) (g : Arr T → Arr T → Arr T)
        (xs : Arr T) (stack : List (Arr T)) (r0 : Arr T) (rest : List (Arr T)),
        IsPure2 f g → xs.valid → xs.rows = r0 :: rest →
        (∀ a b, (g a b).shape = xs.shape.tail ∧
          (g a b).data.length = xs.shape.tail.prod) →
        ∃ res, generic_scan f xs stack = .ok (res :: stack) ∧
          ∀ i, i < xs.row_count →
            generic_fold f (Arr.take_rows (i + 1) xs) none [] = .ok [res.row i]) := by
  constructor
  · intro f p fl xs stack i hp hmem hv hr hi
    have hrne : ¬ xs.rank = 0 := by omega
    fin_cases hmem
    · exact scan_reduce_fast_pair f F64.add (.fin 0) xs stack i hv hr hi
        (by simp [scan_num, hp, hrne]) (by simp [reduce_num, hp, reduce_fast_num])
    · cases fl
      · exact scan_reduce_fast_pair f (flip F64.sub) (.fin 0) xs stack i hv hr hi
          (by simp [scan_num, hp, hrne]) (by simp [reduce_num, hp, reduce_fast_num])
      · exact scan_reduce_fast_pair f F64.sub (.fin 0) xs stack i hv hr hi
          (by simp [scan_num, hp, hrne]) (by simp [reduce_num, hp, reduce_fast_num])
    · exact scan_reduce_fast_pair f F64.mul (.fin 1) xs stack i hv hr hi
        (by simp [scan_num, hp, hrne]) (by simp [reduce_num, hp, reduce_fast_num])
    · cases fl
      · exact scan_reduce_fast_pair f (flip F64.div) (.fin 1) xs stack i hv hr hi
          (by simp [scan_num, hp, hrne]) (by simp [reduce_num, hp, reduce_fast_num])
      · exact scan_reduce_fast_pair f F64.div (.fin 1) xs stack i hv hr hi
          (by simp [scan_num, hp, hrne]) (by simp [reduce_num, hp, reduce_fast_num])
    · exact scan_reduce_fast_pair f F64.max .negInf xs stack i hv hr hi
        (by simp [scan_num, hp, hrne]) (by simp [reduce_num, hp, reduce_fast_num])
    · exact scan_reduce_fast_pair f F64.min .posInf xs stack i hv hr hi
        (by simp [scan_num, hp, hrne]) (by simp [reduce_num, hp, reduce_fast_num])
  · intro T f g xs stack r0 rest hf hv hrows hg
    have hlen := rows_length xs
    rw [hrows] at hlen
    simp only [List.length_cons] at hlen
    have hrc : ¬ xs.row_count = 0 := by omega
    have hr0 : r0 = xs.row 0 := rows_head xs r0 rest hrows
    have hr0shape : r0.shape = xs.shape.tail := by rw [hr0]; rfl
    have hr0len : r0.data.length = xs.shape.tail.prod := by
      rw [hr0]
      exact row_data_length xs 0 hv (by omega)
    have hS : ∀ v ∈ List.scanl g r0 rest, v.shape = xs.shape.tail := by
      intro v hvm
      rcases mem_scanl g rest r0 v hvm with rfl | ⟨x, y, rfl⟩
      · exact hr0shape
      · exact (hg x y).1
    have hSlen : ∀ v ∈ List.scanl g r0 rest,
        v.data.length = xs.shape.tail.prod := by
      intro v hvm
      rcases mem_scanl g rest r0 v hvm with rfl | ⟨x, y, rfl⟩
      · exact hr0len
      · exact (hg x y).2
    have hSne : List.scanl g r0 rest ≠ [] := by
      intro hcon
      have hsl := List.length_scanl (f := g) r0 rest
      rw [hcon] at hsl
      simp at hsl
    have hgo := generic_scan_go_pure hf rest r0 [r0] stack
    have hcomb : ([r0] ++ (List.scanl g r0 rest).tail) = List.scanl g r0 rest := by
      rw [List.singleton_append, ← scanl_head_tail]
    rw [hcomb] at hgo
    have hfrv := from_row_values_uniform xs.shape.tail _ hSne hS
    have hscan : generic_scan f xs stack =
        .ok ((⟨(List.scanl g r0 rest).length :: xs.shape.tail,
          ((List.scanl g r0 rest).map Arr.data).flatten⟩ : Arr T) :: stack) := by
      simp only [generic_scan, if_neg hrc, hrows, hgo, hfrv]
    refine ⟨_, hscan, ?_⟩
    intro i hi
    have hprefix_rows : (Arr.take_rows (i + 1) xs).rows = r0 :: rest.take i := by
      rw [rows_take_rows xs (i + 1) (by omega), hrows, List.take_succ_cons]
    have hfold : generic_fold f (Arr.take_rows (i + 1) xs) none [] =
        .ok [(rest.take i).foldl g r0] := by
      simp only [generic_fold, hf.1, hprefix_rows]
      exact generic_fold2_go_pure hf (rest.take i) r0 []
    rw [hfold,
      stacked_row xs.shape.tail (List.scanl g r0 rest) i r0 hS hSlen
        (by rw [List.length_scanl]; omega),
      scanl_getD g r0 rest r0 i (by omega)]

/-- Witness for C3 at concrete inputs: a fast max scan over [1 2 3] at row
index 2, and a generic scan with a constant scalar-valued pure function. -/
theorem C3_scan_row_is_reduce_prefix_witness :
    (∃ res, scan_num (primFn .max false)
        (⟨[3], [.fin 1, .fin 2, .fin 3]⟩ : Arr F64) [] = .ok (res :: []) ∧
      reduce_num (primFn .max false)
        (Arr.take_rows (2 + 1) (⟨[3], [.fin 1, .fin 2, .fin 3]⟩ : Arr F64)) [] =
        .ok [res.row 2]) ∧
    (∃ res, generic_scan (pureFn2 (fun _ _ => ⟨[], [.fin 5]⟩))
        (⟨[2], [.fin 1, .fin 2]⟩ : Arr F64) [] = .ok (res :: []) ∧
      ∀ i, i < (⟨[2], [.fin 1, .fin 2]⟩ : Arr F64).row_count →
        generic_fold (pureFn2 (fun _ _ => ⟨[], [.fin 5]⟩))
          (Arr.take_rows (i + 1) (⟨[2], [.fin 1, .fin 2]⟩ : Arr F64)) none [] =
          .ok [res.row i]) := by
  constructor
  · exact C3_scan_row_is_reduce_prefix.1 (primFn .max false) .max false _ [] 2
      rfl (by decide) rfl (by decide) (by decide)
  · exact C3_scan_row_is_reduce_prefix.2 (pureFn2 (fun _ _ => ⟨[], [.fin 5]⟩))
      (fun _ _ => ⟨[], [.fin 5]⟩) _ [] ⟨[], [.fin 1]⟩ [⟨[], [.fin 2]⟩]
      ⟨rfl, fun a b s => rfl⟩ rfl (by decide)
      (fun a b => ⟨rfl, rfl⟩)

end Uiua
